import Mathlib

set_option maxHeartbeats 1000000
set_option maxRecDepth 8192

namespace Neo4rs

/-!
Verification of the neo4rs driver core: byte-level protocol helpers,
message framing, handshake, connection pool, transaction state machine,
row streaming and the top-level facade.
-/

/-- Error taxonomy of the driver (spec §7): codec errors, handshake
version mismatch, pool timeout and transaction-state errors. -/
inductive Err where
  | unknownMarker
  | unexpectedEnd
  | sizeMismatch
  | noCompatibleVersion
  | poolExhausted
  | transactionFailed
  | transactionError
  | invalidConfig
  deriving DecidableEq, Repr

/-- Big-endian byte encoding of `n` in `w` bytes, most significant first. -/
def beBytes : Nat → Nat → List Nat
  | 0, _ => []
  | w + 1, n => beBytes w (n / 256) ++ [n % 256]

/-- Big-endian interpretation of a byte list. -/
def fromBe (bs : List Nat) : Nat := bs.foldl (fun acc b => acc * 256 + b) 0

/-- Read exactly `n` bytes of a fixed-width field; truncated input is
rejected with `unexpectedEnd`. -/
def takeExact (n : Nat) (bs : List Nat) : Except Err (List Nat × List Nat) :=
  if bs.length < n then .error .unexpectedEnd else .ok (bs.take n, bs.drop n)

/-- Read a length-prefixed payload of `n` bytes; a length field larger than
the supplied data is rejected with `sizeMismatch`. -/
def takePayload (n : Nat) (bs : List Nat) : Except Err (List Nat × List Nat) :=
  if bs.length < n then .error .sizeMismatch else .ok (bs.take n, bs.drop n)

/-!
Framing (spec §4.2, §6). Modelled from the spec: the `connection.rs` module
(chunker and dechunker) is not under `src/`; every outbound message is split
into chunks of at most 0xFFFF bytes, each prefixed by its 2-byte big-endian
length, and terminated by a zero-length chunk.
-/

/-- Modelled from the spec: split a message body into maximal chunks of at
most 0xFFFF bytes each (`connection.rs` chunker, not under `src/`). -/
def splitChunks (msg : List Nat) : List (List Nat) :=
  if h : msg = [] then []
  else msg.take 65535 :: splitChunks (msg.drop 65535)
termination_by msg.length
decreasing_by
  simp_wf
  have hl : 0 < msg.length := List.length_pos.mpr h
  omega

/-- Modelled from the spec: serialize a chunk list, prefixing each chunk with
its 2-byte big-endian length and appending the zero-length terminator chunk. -/
def frameChunks : List (List Nat) → List Nat
  | [] => [0, 0]
  | c :: cs => beBytes 2 c.length ++ c ++ frameChunks cs

/-- Modelled from the spec: frame one outbound message (`connection.rs`,
not under `src/`). -/
def frame (msg : List Nat) : List Nat := frameChunks (splitChunks msg)

/-- Modelled from the spec: fuel-indexed dechunker; reads `[len][payload]`
chunks until the zero-length terminator, reassembling one message and
returning the unconsumed tail. -/
def deframeF : Nat → List Nat → Except Err (List Nat × List Nat)
  | 0, _ => .error .unexpectedEnd
  | fuel + 1, input =>
    match takeExact 2 input with
    | .error e => .error e
    | .ok (hdr, r) =>
      let n := fromBe hdr
      if n = 0 then .ok ([], r)
      else
        match takePayload n r with
        | .error e => .error e
        | .ok (payload, r2) =>
          match deframeF fuel r2 with
          | .error e => .error e
          | .ok (msgRest, r3) => .ok (payload ++ msgRest, r3)

/-- Modelled from the spec: reassemble one inbound message from chunked
input. Each chunk consumes at least two bytes, so the input length is
sufficient fuel. -/
def deframe (input : List Nat) : Except Err (List Nat × List Nat) :=
  deframeF input.length input

/-!
Handshake (spec §4.2, §6). Modelled from the spec: the handshake logic of
`connection.rs` / `version.rs` is not under `src/`.
-/

/-- Fixed 4-byte magic preamble opening the handshake. -/
def magic : List Nat := [0x60, 0x60, 0xB0, 0x17]

/-- Modelled from the spec: the handshake request is the 4-byte magic value
followed by up to four proposed protocol versions, each 4 bytes big-endian,
highest preference first (`connection.rs`, not under `src/`). -/
def handshakeBytes (proposals : List Nat) : List Nat :=
  magic ++ (proposals.take 4).flatMap (beBytes 4)

/-- Modelled from the spec: parse consecutive 4-byte big-endian version
numbers from the request tail. -/
def parseVersions (bs : List Nat) : List Nat :=
  if h : bs.length < 4 then []
  else fromBe (bs.take 4) :: parseVersions (bs.drop 4)
termination_by bs.length
decreasing_by
  simp_wf
  omega

/-- Modelled from the spec: the server checks the magic preamble and picks
the first proposed version it supports (proposals arrive in
highest-preference-first order); zero signals rejection. -/
def serverChoose (supported request : List Nat) : Nat :=
  if request.take 4 = magic then
    ((parseVersions (request.drop 4)).find? (fun v => supported.contains v)).getD 0
  else 0

/-- Modelled from the spec: the server's single 4-byte big-endian reply. -/
def serverRespond (supported request : List Nat) : List Nat :=
  beBytes 4 (serverChoose supported request)

/-- Modelled from the spec: the client handshake writes magic plus
proposals, reads the server's single 4-byte selected version, and fails
with `noCompatibleVersion` on the all-zero rejection reply, leaving the
link without a negotiated version (unusable). -/
def clientHandshake (supported proposals : List Nat) : Except Err Nat :=
  let reply := serverRespond supported (handshakeBytes proposals)
  let v := fromBe (reply.take 4)
  if v = 0 then .error .noCompatibleVersion else .ok v

/-!
Connection pool (spec §4.3). Modelled from the spec: `pool.rs` and
`connection.rs` are not under `src/`.
-/

/-- Link states of one connection (spec §3). -/
inductive ConnState where
  | disconnected
  | handshaking
  | ready
  | streaming
  | failed
  deriving DecidableEq, Repr

/-- Modelled from the spec: a pooled connection — the id records creation
order, the state tracks the link (`connection.rs`, not under `src/`). -/
structure Conn where
  id : Nat
  state : ConnState
  deriving DecidableEq, Repr

/-- Modelled from the spec: pool bookkeeping (`pool.rs`, not under `src/`):
idle list, in-use list, the capacity bound and a fresh-id counter. -/
structure PoolState where
  idle : List Conn
  inUse : List Conn
  capacity : Nat
  next : Nat
  deriving DecidableEq, Repr

/-- Modelled from the spec: a pool starts with no connections. -/
def poolInit (capacity : Nat) : PoolState := ⟨[], [], capacity, 0⟩

/-- Modelled from the spec: hand out an idle connection when one exists,
else create a fresh handshaken (Ready) connection when below capacity, else
none — the caller must wait for a release. -/
def tryAcquire (s : PoolState) : Option (Conn × PoolState) :=
  match s.idle with
  | c :: rest => some (c, { s with idle := rest, inUse := c :: s.inUse })
  | [] =>
    if s.inUse.length < s.capacity then
      let c : Conn := ⟨s.next, .ready⟩
      some (c, { s with inUse := c :: s.inUse, next := s.next + 1 })
    else none

/-- Modelled from the spec: release connection `cid` back to the pool in
state `st`: a Ready connection returns to idle, any other is closed and
dropped; releasing an unknown id is a no-op. -/
def releaseConn (s : PoolState) (cid : Nat) (st : ConnState) : PoolState :=
  if s.inUse.any (fun c => c.id == cid) then
    let s' := { s with inUse := s.inUse.filter (fun c => c.id != cid) }
    if st = .ready then { s' with idle := ⟨cid, st⟩ :: s'.idle } else s'
  else s

/-- One pool event: an acquire attempt or the release of a leased
connection in a given final state. -/
inductive PoolEvent where
  | acquire
  | release (cid : Nat) (st : ConnState)
  deriving DecidableEq, Repr

/-- Modelled from the spec: pool bookkeeping transition for one event; a
blocked acquire (pool at capacity, idle empty) changes nothing. -/
def poolStep (s : PoolState) (e : PoolEvent) : PoolState :=
  match e with
  | .acquire =>
    match tryAcquire s with
    | some (_, s') => s'
    | none => s
  | .release cid st => releaseConn s cid st

/-- Run the pool over a sequence of events. -/
def poolRun (s : PoolState) (es : List PoolEvent) : PoolState := es.foldl poolStep s

/-- Size invariant: the pool never tracks more connections than capacity. -/
def poolSizeOk (s : PoolState) : Prop := s.idle.length + s.inUse.length ≤ s.capacity

/-- State invariant: only Ready connections sit in the idle list. -/
def idleReady (s : PoolState) : Prop := ∀ c ∈ s.idle, c.state = ConnState.ready

/-- Modelled from the spec: an acquire bounded by the caller-supplied
timeout, counted in discrete waiting ticks; `evs` are the pool events
observed while waiting, one per tick. When nothing becomes available within
the bound the call fails with `poolExhausted`. -/
def acquireTimeout : Nat → List PoolEvent → PoolState → Except Err (Conn × PoolState)
  | 0, _, _ => .error .poolExhausted
  | t + 1, evs, s =>
    match tryAcquire s with
    | some r => .ok r
    | none =>
      match evs with
      | [] => acquireTimeout t [] s
      | e :: rest => acquireTimeout t rest (poolStep s e)

/-!
Transaction state machine (spec §4.4). Modelled from the spec: `txn.rs` is
not under `src/`.
-/

/-- States of a transaction (spec §3). -/
inductive TxnState where
  | idle
  | active
  | committed
  | rolledBack
  | failed
  deriving DecidableEq, Repr

/-- Messages the transaction layer writes to the server (spec §6). -/
inductive Msg where
  | beginTx
  | runQ
  | pull
  | discardAll
  | commit
  | rollback
  | reset
  | goodbye
  deriving DecidableEq, Repr

/-- Operations a caller can issue on a transaction. -/
inductive TxnOp where
  | beginTx
  | runQ
  | pull
  | commit
  | rollback
  | reset
  deriving DecidableEq, Repr

/-- Modelled from the spec: one local step of the transaction state machine
(`txn.rs`, not under `src/`). Returns the local outcome, the messages
written to the server, and the successor state. While Failed, everything
except explicit rollback/reset is rejected locally with `transactionFailed`
and nothing is sent; operations on a Committed or RolledBack transaction
are rejected with `transactionError`; running a query sends RUN immediately
followed by an initial PULL. -/
def txnStep : TxnState → TxnOp → Except Err Unit × List Msg × TxnState
  | .idle, .beginTx => (.ok (), [.beginTx], .active)
  | .idle, .runQ => (.ok (), [.runQ, .pull], .active)
  | .idle, .pull => (.error .transactionError, [], .idle)
  | .idle, .commit => (.error .transactionError, [], .idle)
  | .idle, .rollback => (.error .transactionError, [], .idle)
  | .idle, .reset => (.ok (), [.reset], .idle)
  | .active, .beginTx => (.error .transactionError, [], .active)
  | .active, .runQ => (.ok (), [.runQ, .pull], .active)
  | .active, .pull => (.ok (), [.pull], .active)
  | .active, .commit => (.ok (), [.commit], .committed)
  | .active, .rollback => (.ok (), [.rollback], .rolledBack)
  | .active, .reset => (.ok (), [.reset], .idle)
  | .committed, _ => (.error .transactionError, [], .committed)
  | .rolledBack, _ => (.error .transactionError, [], .rolledBack)
  | .failed, .rollback => (.ok (), [.rollback], .rolledBack)
  | .failed, .reset => (.ok (), [.reset], .rolledBack)
  | .failed, _ => (.error .transactionFailed, [], .failed)

/-- Modelled from the spec: a server FAILURE response poisons an Active
transaction (Active → Failed); other states are unaffected. -/
def onServerFailure : TxnState → TxnState
  | .active => .failed
  | s => s

/-!
RowStream (spec §4.5). Modelled from the spec: `stream.rs` is not under
`src/`. The record type is a parameter; the driver instantiates it with
decoded rows.
-/

/-- Modelled from the spec: stream cursor state — buffered decoded records,
records the server still holds, the terminal-summary flag and the
configured PULL batch size (`stream.rs`, not under `src/`). -/
structure StreamState (α : Type) where
  buffer : List α
  pending : List α
  finished : Bool
  fetchSize : Nat

/-- Modelled from the spec: a freshly submitted query over the server-side
record sequence, nothing buffered, summary not yet seen. -/
def streamInit {α : Type} (rows : List α) (fetch : Nat) : StreamState α :=
  ⟨[], rows, false, fetch⟩

/-- Modelled from the spec: RowStream.next — dequeue a buffered record
first; on an empty buffer, unless the terminal summary was seen, send a
further PULL of `fetchSize` records; the batch that drains the server
carries the no-more-records summary and marks the stream finished. -/
def streamNext {α : Type} (s : StreamState α) : Option α × StreamState α :=
  match s.buffer with
  | r :: rest => (some r, { s with buffer := rest })
  | [] =>
    if s.finished then (none, s)
    else
      match s.pending.take s.fetchSize with
      | [] => (none, { s with finished := true })
      | r :: brest =>
        (some r, { s with
          buffer := brest
          pending := s.pending.drop s.fetchSize
          finished := (s.pending.drop s.fetchSize).isEmpty })

/-- Records not yet returned to the caller, in order. -/
def streamRemaining {α : Type} (s : StreamState α) : List α := s.buffer ++ s.pending

/-- Stream invariant: once the terminal summary is seen the server holds
nothing more. -/
def streamInv {α : Type} (s : StreamState α) : Prop :=
  s.finished = true → s.pending = []

/-- Outcomes of the first `n` calls of RowStream.next, in order. -/
def streamTrace {α : Type} : Nat → StreamState α → List (Option α)
  | 0, _ => []
  | n + 1, s =>
    match streamNext s with
    | (r, s') => r :: streamTrace n s'

/-!
Facade (`src/lib/src/lib.rs`) and configuration. The `Graph` type below is
embedded from `lib.rs`; `config.rs` and `pool.rs` are not under `src/`, so
the builder and `create_pool` are modelled from the spec.
-/

/-- Configuration consumed at handshake/HELLO time (spec §6). -/
structure Config where
  uri : String
  user : String
  password : String
  deriving DecidableEq, Repr

/-- Modelled from the spec: the configuration builder behind
`config().uri(..).user(..).password(..).build()` (`config.rs`, not under
`src/`); `build` fails exactly when a required field is missing. -/
structure ConfigBuilder where
  uri : Option String
  user : Option String
  password : Option String
  deriving DecidableEq, Repr

/-- Empty configuration builder (`config()` in `lib.rs`). -/
def configBuilder : ConfigBuilder := ⟨none, none, none⟩

/-- Builder setter for the uri field. -/
def ConfigBuilder.setUri (b : ConfigBuilder) (s : String) : ConfigBuilder :=
  { b with uri := some s }

/-- Builder setter for the user field. -/
def ConfigBuilder.setUser (b : ConfigBuilder) (s : String) : ConfigBuilder :=
  { b with user := some s }

/-- Builder setter for the password field. -/
def ConfigBuilder.setPassword (b : ConfigBuilder) (s : String) : ConfigBuilder :=
  { b with password := some s }

/-- Modelled from the spec: `build` succeeds exactly when uri, user and
password have all been supplied. -/
def ConfigBuilder.build (b : ConfigBuilder) : Except Err Config :=
  match b.uri, b.user, b.password with
  | some u, some us, some p => .ok ⟨u, us, p⟩
  | _, _, _ => .error .invalidConfig

/-- Modelled from the spec: `create_pool` only assembles the pool
bookkeeping — it opens no socket, so it cannot fail and the new pool holds
no connections (`pool.rs`, not under `src/`; `lib.rs` line 60 calls it with
no error path). The capacity constant is not fixed by the spec. -/
def create_pool (_uri _user _password : String) : PoolState := poolInit 16

/-- Embedded from `lib.rs`: the driver facade owns the configuration and
the connection pool. -/
structure Graph where
  config : Config
  pool : PoolState

/-- Embedded from `lib.rs` lines 59-62: `Graph::connect` builds the pool
and always returns Ok — no handshake or authentication happens here. -/
def Graph.connect (config : Config) : Except Err Graph :=
  .ok ⟨config, create_pool config.uri config.user config.password⟩

/-- Embedded from `lib.rs` lines 64-67: `Graph::new` builds a configuration
from uri, user and password and delegates to `Graph::connect`; only the
builder step can fail. -/
def Graph.new (uri user password : String) : Except Err Graph :=
  match ((configBuilder.setUri uri).setUser user).setPassword password |>.build with
  | .error e => .error e
  | .ok c => Graph.connect c

/-!
Codec (spec §4.1, §6). Modelled from the spec: `types.rs` / `convert.rs`
(the marker-byte value codec) are not under `src/`. Values are encoded with
a compact marker-byte scheme: small integers inline in the marker byte,
larger integers with width-selected markers, floats with a fixed-width
marker, strings/lists/maps with tiny/8/16/32-bit size-class markers, and
graph structures with a structure marker carrying the field count plus a
one-byte type tag followed by the fields in a fixed type-specific order.
Strings are modelled as their utf-8 byte sequences and floats as their
64-bit pattern.
-/

/-- Modelled from the spec: the wire value union (spec §3): scalars,
collections, graph structures, spatial points and temporal variants. Path
holds its node and relationship sequences as wire values constrained to
the right shapes by `wfV` below, mirroring their list-of-structure
encoding. -/
inductive WireValue where
  | null
  | bool (b : Bool)
  | integer (i : Int)
  | float (bits : Nat)
  | string (s : List Nat)
  | list (items : List WireValue)
  | map (entries : List (List Nat × WireValue))
  | bytes (bs : List Nat)
  | node (id : Int) (labels : List (List Nat)) (properties : List (List Nat × WireValue))
  | relationship (id startNodeId endNodeId : Int) (relType : List Nat)
      (properties : List (List Nat × WireValue))
  | unboundedRelationship (id : Int) (relType : List Nat)
      (properties : List (List Nat × WireValue))
  | path (nodes : List WireValue) (rels : List WireValue) (indices : List Int)
  | point2d (srid : Int) (x y : Nat)
  | point3d (srid : Int) (x y z : Nat)
  | date (days : Int)
  | localTime (nanos : Int)
  | localDateTime (epochSeconds nanos : Int)

/-- Two's-complement encoding of an integer in `w` big-endian bytes. -/
def toTwos (w : Nat) (i : Int) : List Nat := beBytes w (i % (2 ^ (8 * w) : Int)).toNat

/-- Two's-complement reading of a `w`-byte big-endian value. -/
def fromTwos (w n : Nat) : Int :=
  if n < 2 ^ (8 * w - 1) then (n : Int) else (n : Int) - 2 ^ (8 * w)

/-- Modelled from the spec: integer encoding — small integers inline in the
marker byte, larger ones behind width-selected 8/16/32/64-bit markers. -/
def encodeIntV (i : Int) : List Nat :=
  if -16 ≤ i ∧ i ≤ 127 then [(i % (256 : Int)).toNat]
  else if -128 ≤ i ∧ i ≤ 127 then 0xC8 :: toTwos 1 i
  else if -32768 ≤ i ∧ i ≤ 32767 then 0xC9 :: toTwos 2 i
  else if -2147483648 ≤ i ∧ i ≤ 2147483647 then 0xCA :: toTwos 4 i
  else 0xCB :: toTwos 8 i

/-- Modelled from the spec: size-class header for strings
(tiny/8/16/32-bit length). -/
def strHeader (n : Nat) : List Nat :=
  if n < 16 then [0x80 + n]
  else if n < 256 then [0xD0, n]
  else if n < 65536 then 0xD1 :: beBytes 2 n
  else 0xD2 :: beBytes 4 n

/-- Modelled from the spec: string encoding, header then raw bytes. -/
def encodeStr (s : List Nat) : List Nat := strHeader s.length ++ s

/-- Modelled from the spec: size-class header for byte arrays
(8/16/32-bit length). -/
def bytesHeader (n : Nat) : List Nat :=
  if n < 256 then [0xCC, n]
  else if n < 65536 then 0xCD :: beBytes 2 n
  else 0xCE :: beBytes 4 n

/-- Modelled from the spec: size-class header for lists. -/
def listHeader (n : Nat) : List Nat :=
  if n < 16 then [0x90 + n]
  else if n < 256 then [0xD4, n]
  else if n < 65536 then 0xD5 :: beBytes 2 n
  else 0xD6 :: beBytes 4 n

/-- Modelled from the spec: size-class header for maps. -/
def mapHeader (n : Nat) : List Nat :=
  if n < 16 then [0xA0 + n]
  else if n < 256 then [0xD8, n]
  else if n < 65536 then 0xD9 :: beBytes 2 n
  else 0xDA :: beBytes 4 n

/-- Modelled from the spec: a list of strings (node labels), encoded as a
list value of string values. -/
def encodeStrList (ls : List (List Nat)) : List Nat :=
  listHeader ls.length ++ (ls.map encodeStr).flatten

/-- Modelled from the spec: a list of integers (path indices), encoded as a
list value of integer values. -/
def encodeIntList (is : List Int) : List Nat :=
  listHeader is.length ++ (is.map encodeIntV).flatten

mutual

/-- Modelled from the spec: value encoder (spec §4.1); structures carry a
tiny-struct marker with their field count, then the one-byte type tag, then
the fields in the fixed type-specific order. -/
def encode : WireValue → List Nat
  | .null => [0xC0]
  | .bool b => if b then [0xC3] else [0xC2]
  | .integer i => encodeIntV i
  | .float bits => 0xC1 :: beBytes 8 bits
  | .string s => encodeStr s
  | .list items => listHeader items.length ++ encodeItems items
  | .map entries => mapHeader entries.length ++ encodeEntries entries
  | .bytes bs => bytesHeader bs.length ++ bs
  | .node id labels props =>
      [0xB3, 0x4E] ++ encodeIntV id ++ encodeStrList labels
        ++ (mapHeader props.length ++ encodeEntries props)
  | .relationship id sid eid t props =>
      [0xB5, 0x52] ++ encodeIntV id ++ encodeIntV sid ++ encodeIntV eid
        ++ encodeStr t ++ (mapHeader props.length ++ encodeEntries props)
  | .unboundedRelationship id t props =>
      [0xB3, 0x72] ++ encodeIntV id ++ encodeStr t
        ++ (mapHeader props.length ++ encodeEntries props)
  | .path ns rs idx =>
      [0xB3, 0x50] ++ (listHeader ns.length ++ encodeItems ns)
        ++ (listHeader rs.length ++ encodeItems rs) ++ encodeIntList idx
  | .point2d srid x y =>
      [0xB3, 0x58] ++ encodeIntV srid ++ (0xC1 :: beBytes 8 x) ++ (0xC1 :: beBytes 8 y)
  | .point3d srid x y z =>
      [0xB4, 0x59] ++ encodeIntV srid ++ (0xC1 :: beBytes 8 x) ++ (0xC1 :: beBytes 8 y)
        ++ (0xC1 :: beBytes 8 z)
  | .date days => [0xB1, 0x44] ++ encodeIntV days
  | .localTime nanos => [0xB1, 0x74] ++ encodeIntV nanos
  | .localDateTime secs nanos => [0xB2, 0x64] ++ encodeIntV secs ++ encodeIntV nanos

/-- Concatenated encodings of list items. -/
def encodeItems : List WireValue → List Nat
  | [] => []
  | v :: vs => encode v ++ encodeItems vs

/-- Concatenated encodings of map entries (string key, then value). -/
def encodeEntries : List (List Nat × WireValue) → List Nat
  | [] => []
  | (k, v) :: kvs => encodeStr k ++ encode v ++ encodeEntries kvs

end

/-- Shape test used when decoding a Path's node sequence. -/
def isNodeV : WireValue → Bool
  | .node _ _ _ => true
  | _ => false

/-- Shape test used when decoding a Path's relationship sequence. -/
def isURelV : WireValue → Bool
  | .unboundedRelationship _ _ _ => true
  | _ => false

/-- Extract the byte strings from a list of string values. -/
def asStrings : List WireValue → Option (List (List Nat))
  | [] => some []
  | .string s :: vs => (asStrings vs).map (s :: ·)
  | _ => none

/-- Extract the integers from a list of integer values. -/
def asInts : List WireValue → Option (List Int)
  | [] => some []
  | .integer i :: vs => (asInts vs).map (i :: ·)
  | _ => none

/-- Modelled from the spec: rebuild a typed structure from its tag and its
decoded fields, in the fixed type-specific field order; a tag/field-shape
mismatch is malformed input. -/
def mkStruct : Nat → List WireValue → Except Err WireValue
  | 0x4E, [.integer id, .list ls, .map props] =>
    match asStrings ls with
    | some labels => .ok (.node id labels props)
    | none => .error .unknownMarker
  | 0x52, [.integer id, .integer sid, .integer eid, .string t, .map props] =>
    .ok (.relationship id sid eid t props)
  | 0x72, [.integer id, .string t, .map props] =>
    .ok (.unboundedRelationship id t props)
  | 0x50, [.list ns, .list rs, .list ivs] =>
    if ns.all isNodeV && rs.all isURelV then
      match asInts ivs with
      | some idx => .ok (.path ns rs idx)
      | none => .error .unknownMarker
    else .error .unknownMarker
  | 0x58, [.integer srid, .float x, .float y] => .ok (.point2d srid x y)
  | 0x59, [.integer srid, .float x, .float y, .float z] => .ok (.point3d srid x y z)
  | 0x44, [.integer days] => .ok (.date days)
  | 0x74, [.integer nanos] => .ok (.localTime nanos)
  | 0x64, [.integer secs, .integer nanos] => .ok (.localDateTime secs nanos)
  | _, _ => .error .unknownMarker

/-- Read a `w`-byte big-endian length field. -/
def readLen (w : Nat) (bs : List Nat) : Except Err (Nat × List Nat) :=
  match takeExact w bs with
  | .error e => .error e
  | .ok (pre, r) => .ok (fromBe pre, r)

/-- Decode a `w`-byte two's-complement integer body. -/
def decodeIntW (w : Nat) (bs : List Nat) : Except Err (WireValue × List Nat) :=
  match takeExact w bs with
  | .error e => .error e
  | .ok (pre, r) => .ok (.integer (fromTwos w (fromBe pre)), r)

/-- Modelled from the spec: string-marker dispatch (map keys are string
values); non-string markers here are malformed. -/
def decodeStrMarker (m : Nat) (input : List Nat) : Except Err (List Nat × List Nat) :=
    if 0x80 ≤ m ∧ m < 0x90 then takePayload (m - 0x80) input
    else if m = 0xD0 then
      match readLen 1 input with
      | .error e => .error e
      | .ok (n, r) => takePayload n r
    else if m = 0xD1 then
      match readLen 2 input with
      | .error e => .error e
      | .ok (n, r) => takePayload n r
    else if m = 0xD2 then
      match readLen 4 input with
      | .error e => .error e
      | .ok (n, r) => takePayload n r
    else .error .unknownMarker

/-- Modelled from the spec: decode one string value off the input. -/
def decodeStrV : List Nat → Except Err (List Nat × List Nat)
  | [] => .error .unexpectedEnd
  | m :: input => decodeStrMarker m input

/-- Decode `n` consecutive values with the element decoder `d`. -/
def decodeItemsGo (d : List Nat → Except Err (WireValue × List Nat)) :
    Nat → List Nat → Except Err (List WireValue × List Nat)
  | 0, input => .ok ([], input)
  | n + 1, input =>
    match d input with
    | .error e => .error e
    | .ok (v, r) =>
      match decodeItemsGo d n r with
      | .error e => .error e
      | .ok (vs, r2) => .ok (v :: vs, r2)

/-- Decode `n` consecutive key/value entries with the value decoder `d`. -/
def decodeEntriesGo (d : List Nat → Except Err (WireValue × List Nat)) :
    Nat → List Nat → Except Err (List (List Nat × WireValue) × List Nat)
  | 0, input => .ok ([], input)
  | n + 1, input =>
    match decodeStrV input with
    | .error e => .error e
    | .ok (k, r) =>
      match d r with
      | .error e => .error e
      | .ok (v, r2) =>
        match decodeEntriesGo d n r2 with
        | .error e => .error e
        | .ok (kvs, r3) => .ok ((k, v) :: kvs, r3)

/-- Modelled from the spec: marker dispatch — decode one value whose
marker byte is `m` and whose remaining input is `input`, using `d` for
nested values; unknown marker bytes are rejected with `unknownMarker`,
input ending inside a fixed-width field with `unexpectedEnd`, and a length
field larger than the data supplied with `sizeMismatch`. -/
def decodeMarker (d : List Nat → Except Err (WireValue × List Nat))
    (m : Nat) (input : List Nat) : Except Err (WireValue × List Nat) :=
    if m < 0x80 then .ok (.integer m, input)
    else if 0xF0 ≤ m ∧ m < 0x100 then .ok (.integer ((m : Int) - 256), input)
    else if m < 0x90 then
      match takePayload (m - 0x80) input with
      | .error e => .error e
      | .ok (s, r) => .ok (.string s, r)
    else if m < 0xA0 then
      match decodeItemsGo d (m - 0x90) input with
      | .error e => .error e
      | .ok (vs, r) => .ok (.list vs, r)
    else if m < 0xB0 then
      match decodeEntriesGo d (m - 0xA0) input with
      | .error e => .error e
      | .ok (kvs, r) => .ok (.map kvs, r)
    else if m < 0xC0 then
      match input with
      | [] => .error .unexpectedEnd
      | tag :: r2 =>
        match decodeItemsGo d (m - 0xB0) r2 with
        | .error e => .error e
        | .ok (fields, r3) =>
          match mkStruct tag fields with
          | .error e => .error e
          | .ok v => .ok (v, r3)
    else if m = 0xC0 then .ok (.null, input)
    else if m = 0xC1 then
      match takeExact 8 input with
      | .error e => .error e
      | .ok (b8, r) => .ok (.float (fromBe b8), r)
    else if m = 0xC2 then .ok (.bool false, input)
    else if m = 0xC3 then .ok (.bool true, input)
    else if m = 0xC8 then decodeIntW 1 input
    else if m = 0xC9 then decodeIntW 2 input
    else if m = 0xCA then decodeIntW 4 input
    else if m = 0xCB then decodeIntW 8 input
    else if m = 0xCC then
      match readLen 1 input with
      | .error e => .error e
      | .ok (n, r) =>
        match takePayload n r with
        | .error e => .error e
        | .ok (bs, r2) => .ok (.bytes bs, r2)
    else if m = 0xCD then
      match readLen 2 input with
      | .error e => .error e
      | .ok (n, r) =>
        match takePayload n r with
        | .error e => .error e
        | .ok (bs, r2) => .ok (.bytes bs, r2)
    else if m = 0xCE then
      match readLen 4 input with
      | .error e => .error e
      | .ok (n, r) =>
        match takePayload n r with
        | .error e => .error e
        | .ok (bs, r2) => .ok (.bytes bs, r2)
    else if m = 0xD0 then
      match readLen 1 input with
      | .error e => .error e
      | .ok (n, r) =>
        match takePayload n r with
        | .error e => .error e
        | .ok (s, r2) => .ok (.string s, r2)
    else if m = 0xD1 then
      match readLen 2 input with
      | .error e => .error e
      | .ok (n, r) =>
        match takePayload n r with
        | .error e => .error e
        | .ok (s, r2) => .ok (.string s, r2)
    else if m = 0xD2 then
      match readLen 4 input with
      | .error e => .error e
      | .ok (n, r) =>
        match takePayload n r with
        | .error e => .error e
        | .ok (s, r2) => .ok (.string s, r2)
    else if m = 0xD4 then
      match readLen 1 input with
      | .error e => .error e
      | .ok (n, r) =>
        match decodeItemsGo d n r with
        | .error e => .error e
        | .ok (vs, r2) => .ok (.list vs, r2)
    else if m = 0xD5 then
      match readLen 2 input with
      | .error e => .error e
      | .ok (n, r) =>
        match decodeItemsGo d n r with
        | .error e => .error e
        | .ok (vs, r2) => .ok (.list vs, r2)
    else if m = 0xD6 then
      match readLen 4 input with
      | .error e => .error e
      | .ok (n, r) =>
        match decodeItemsGo d n r with
        | .error e => .error e
        | .ok (vs, r2) => .ok (.list vs, r2)
    else if m = 0xD8 then
      match readLen 1 input with
      | .error e => .error e
      | .ok (n, r) =>
        match decodeEntriesGo d n r with
        | .error e => .error e
        | .ok (kvs, r2) => .ok (.map kvs, r2)
    else if m = 0xD9 then
      match readLen 2 input with
      | .error e => .error e
      | .ok (n, r) =>
        match decodeEntriesGo d n r with
        | .error e => .error e
        | .ok (kvs, r2) => .ok (.map kvs, r2)
    else if m = 0xDA then
      match readLen 4 input with
      | .error e => .error e
      | .ok (n, r) =>
        match decodeEntriesGo d n r with
        | .error e => .error e
        | .ok (kvs, r2) => .ok (.map kvs, r2)
    else .error .unknownMarker

/-- Modelled from the spec: decode one value off the front of the input. -/
def decodeOne (d : List Nat → Except Err (WireValue × List Nat)) :
    List Nat → Except Err (WireValue × List Nat)
  | [] => .error .unexpectedEnd
  | m :: input => decodeMarker d m input

/-- Modelled from the spec: fuel-indexed value decoder, the exact inverse
of `encode`. Each nesting level consumes one unit of fuel, so any fuel
beyond the input length is enough. -/
def decodeF : Nat → List Nat → Except Err (WireValue × List Nat)
  | 0, _ => .error .unexpectedEnd
  | fuel + 1, input => decodeOne (decodeF fuel) input

/-- Modelled from the spec: top-level decode; one more unit of fuel than
the input length is always enough, as every nesting level consumes at
least one input byte. -/
def decode (input : List Nat) : Except Err (WireValue × List Nat) :=
  decodeF (input.length + 1) input

/-- Marker bytes meaningless to the decoder. -/
def isUnknownMarker (m : Nat) : Bool :=
  (0xC4 ≤ m && m ≤ 0xC7) || m == 0xCF || m == 0xD3 || m == 0xD7
    || (0xDB ≤ m && m ≤ 0xEF) || 0x100 ≤ m

mutual

/-- Supported-value bound: integers fit in 64 signed bits, float patterns
in 64 bits, sizes in 32 bits, content bytes in one byte, and a Path's node
and relationship sequences hold exactly node-shaped and
unbounded-relationship-shaped values. -/
def wfV : WireValue → Bool
  | .null => true
  | .bool _ => true
  | .integer i => decide (-(2 ^ 63) ≤ i) && decide (i < 2 ^ 63)
  | .float bits => decide (bits < 2 ^ 64)
  | .string s => decide (s.length < 2 ^ 32) && s.all (· < 256)
  | .list items => decide (items.length < 2 ^ 32) && wfItems items
  | .map entries => decide (entries.length < 2 ^ 32) && wfEntries entries
  | .bytes bs => decide (bs.length < 2 ^ 32) && bs.all (· < 256)
  | .node id labels props =>
      decide (-(2 ^ 63) ≤ id) && decide (id < 2 ^ 63)
        && decide (labels.length < 2 ^ 32)
        && labels.all (fun l => decide (l.length < 2 ^ 32) && l.all (· < 256))
        && decide (props.length < 2 ^ 32) && wfEntries props
  | .relationship id sid eid t props =>
      decide (-(2 ^ 63) ≤ id) && decide (id < 2 ^ 63)
        && decide (-(2 ^ 63) ≤ sid) && decide (sid < 2 ^ 63)
        && decide (-(2 ^ 63) ≤ eid) && decide (eid < 2 ^ 63)
        && decide (t.length < 2 ^ 32) && t.all (· < 256)
        && decide (props.length < 2 ^ 32) && wfEntries props
  | .unboundedRelationship id t props =>
      decide (-(2 ^ 63) ≤ id) && decide (id < 2 ^ 63)
        && decide (t.length < 2 ^ 32) && t.all (· < 256)
        && decide (props.length < 2 ^ 32) && wfEntries props
  | .path ns rs idx =>
      decide (ns.length < 2 ^ 32) && ns.all isNodeV && wfItems ns
        && decide (rs.length < 2 ^ 32) && rs.all isURelV && wfItems rs
        && decide (idx.length < 2 ^ 32)
        && idx.all (fun i => decide (-(2 ^ 63) ≤ i) && decide (i < 2 ^ 63))
  | .point2d srid x y =>
      decide (-(2 ^ 63) ≤ srid) && decide (srid < 2 ^ 63)
        && decide (x < 2 ^ 64) && decide (y < 2 ^ 64)
  | .point3d srid x y z =>
      decide (-(2 ^ 63) ≤ srid) && decide (srid < 2 ^ 63)
        && decide (x < 2 ^ 64) && decide (y < 2 ^ 64) && decide (z < 2 ^ 64)
  | .date days => decide (-(2 ^ 63) ≤ days) && decide (days < 2 ^ 63)
  | .localTime nanos => decide (-(2 ^ 63) ≤ nanos) && decide (nanos < 2 ^ 63)
  | .localDateTime secs nanos =>
      decide (-(2 ^ 63) ≤ secs) && decide (secs < 2 ^ 63)
        && decide (-(2 ^ 63) ≤ nanos) && decide (nanos < 2 ^ 63)

/-- Supported-value bound for each list item. -/
def wfItems : List WireValue → Bool
  | [] => true
  | v :: vs => wfV v && wfItems vs

/-- Supported-value bound for each map entry: a sized one-byte-content key
and a supported value. -/
def wfEntries : List (List Nat × WireValue) → Bool
  | [] => true
  | (k, v) :: kvs =>
      decide (k.length < 2 ^ 32) && k.all (· < 256) && wfV v && wfEntries kvs

end

end Neo4rs

namespace Neo4rs

theorem length_beBytes (w n : Nat) : (beBytes w n).length = w := by
  induction w generalizing n with
  | zero => rfl
  | succ w ih => simp [beBytes, ih]

theorem fromBe_append_singleton (bs : List Nat) (b : Nat) :
    fromBe (bs ++ [b]) = fromBe bs * 256 + b := by
  simp [fromBe, List.foldl_append]

theorem fromBe_beBytes (w n : Nat) (h : n < 256 ^ w) :
    fromBe (beBytes w n) = n := by
  induction w generalizing n with
  | zero =>
    interval_cases n
    rfl
  | succ w ih =>
    have hdiv : n / 256 < 256 ^ w := by
      rw [Nat.div_lt_iff_lt_mul (by norm_num)]
      calc n < 256 ^ (w + 1) := h
        _ = 256 ^ w * 256 := by ring
    rw [beBytes, fromBe_append_singleton, ih _ hdiv]
    omega

theorem takeExact_front (n : Nat) (pre rest : List Nat) (hn : pre.length = n) :
    takeExact n (pre ++ rest) = .ok (pre, rest) := by
  subst hn
  simp [takeExact, List.take_left, List.drop_left]

theorem takePayload_front (n : Nat) (pre rest : List Nat) (hn : pre.length = n) :
    takePayload n (pre ++ rest) = .ok (pre, rest) := by
  subst hn
  simp [takePayload, List.take_left, List.drop_left]

theorem deframeF_frameChunks (cs : List (List Nat)) :
    ∀ (rest : List Nat) (fuel : Nat),
      (∀ c ∈ cs, c ≠ [] ∧ c.length ≤ 65535) →
      (frameChunks cs).length + rest.length ≤ fuel →
      deframeF fuel (frameChunks cs ++ rest) = .ok (cs.flatten, rest) := by
  induction cs with
  | nil =>
    intro rest fuel _ hfuel
    simp only [frameChunks] at hfuel ⊢
    obtain ⟨f, rfl⟩ : ∃ f, fuel = f + 1 := ⟨fuel - 1, by simp at hfuel; omega⟩
    rw [deframeF, takeExact_front 2 [0, 0] rest (by rfl)]
    simp [fromBe]
  | cons c cs ih =>
    intro rest fuel hwf hfuel
    obtain ⟨hc, hcle⟩ := hwf c (by simp)
    have hclen : 0 < c.length := List.length_pos.mpr hc
    simp only [frameChunks, List.length_append, length_beBytes] at hfuel
    obtain ⟨f, rfl⟩ : ∃ f, fuel = f + 1 := ⟨fuel - 1, by omega⟩
    have hassoc : frameChunks (c :: cs) ++ rest
        = beBytes 2 c.length ++ (c ++ (frameChunks cs ++ rest)) := by
      simp [frameChunks, List.append_assoc]
    rw [hassoc, deframeF,
      takeExact_front 2 (beBytes 2 c.length) _ (length_beBytes 2 _)]
    have hbe : fromBe (beBytes 2 c.length) = c.length :=
      fromBe_beBytes 2 c.length (by omega)
    simp only [hbe]
    rw [if_neg (by omega)]
    rw [takePayload_front c.length c _ rfl]
    have hih := ih rest f (fun d hd => hwf d (by simp [hd])) (by omega)
    simp [hih]

theorem splitChunks_spec :
    ∀ (n : Nat) (msg : List Nat), msg.length ≤ n →
      (splitChunks msg).flatten = msg
        ∧ ∀ c ∈ splitChunks msg, c ≠ [] ∧ c.length ≤ 65535 := by
  intro n
  induction n with
  | zero =>
    intro msg h
    have hm : msg = [] := List.eq_nil_of_length_eq_zero (by omega)
    subst hm
    rw [splitChunks.eq_def]
    simp
  | succ n ih =>
    intro msg h
    by_cases hm : msg = []
    · subst hm
      rw [splitChunks.eq_def]
      simp
    · rw [splitChunks.eq_def, dif_neg hm]
      have hpos : 0 < msg.length := List.length_pos.mpr hm
      have hdrop : (msg.drop 65535).length ≤ n := by
        simp only [List.length_drop]
        omega
      obtain ⟨hj, hwf⟩ := ih (msg.drop 65535) hdrop
      refine ⟨?_, ?_⟩
      · simp [hj, List.take_append_drop]
      · intro c hc
        rcases List.mem_cons.mp hc with rfl | hc
        · refine ⟨?_, by simp⟩
          simp only [ne_eq, List.take_eq_nil_iff]
          push_neg
          exact ⟨by omega, hm⟩
        · exact hwf c hc

theorem splitChunks_join (msg : List Nat) : (splitChunks msg).flatten = msg :=
  (splitChunks_spec msg.length msg le_rfl).1

theorem splitChunks_wf (msg : List Nat) :
    ∀ c ∈ splitChunks msg, c ≠ [] ∧ c.length ≤ 65535 :=
  (splitChunks_spec msg.length msg le_rfl).2

theorem splitChunks_ne_nil (msg : List Nat) (h : msg ≠ []) :
    splitChunks msg ≠ [] := by
  rw [splitChunks.eq_def, dif_neg h]
  simp

/-- C6: framing splits every outbound message into one or more chunks, each
prefixed by its 2-byte big-endian length, appends a zero-length terminator
chunk, and deframing reassembles the chunks until the terminator into
exactly the original message: deframe after frame is the identity on
message payloads, leaving trailing bytes untouched. -/
theorem framing_roundtrip (msg rest : List Nat) (hmsg : msg ≠ []) :
    splitChunks msg ≠ []
      ∧ (∀ c ∈ splitChunks msg, c ≠ [] ∧ c.length ≤ 65535)
      ∧ (splitChunks msg).flatten = msg
      ∧ frame msg = frameChunks (splitChunks msg)
      ∧ deframe (frame msg ++ rest) = .ok (msg, rest) := by
  refine ⟨splitChunks_ne_nil msg hmsg, splitChunks_wf msg, splitChunks_join msg, rfl, ?_⟩
  rw [deframe, frame]
  have h := deframeF_frameChunks (splitChunks msg) rest
    ((frameChunks (splitChunks msg)).length + rest.length)
    (splitChunks_wf msg) (by simp)
  rw [splitChunks_join msg] at h
  simpa using h

/-- C6 witness: a concrete three-byte message with a trailing byte frames
and deframes back to itself. -/
theorem framing_roundtrip_witness :
    deframe (frame [1, 2, 3] ++ [9]) = .ok ([1, 2, 3], [9]) :=
  (framing_roundtrip [1, 2, 3] [9] (by decide)).2.2.2.2

theorem take_prefix_eq {α : Type} (n : Nat) (pre rest : List α)
    (h : pre.length = n) : (pre ++ rest).take n = pre := by
  subst h
  exact List.take_left pre rest

theorem drop_prefix_eq {α : Type} (n : Nat) (pre rest : List α)
    (h : pre.length = n) : (pre ++ rest).drop n = rest := by
  subst h
  exact List.drop_left pre rest

theorem take_len_beBytes (w n : Nat) : (beBytes w n).take w = beBytes w n := by
  have h := List.take_length (beBytes w n)
  rwa [length_beBytes] at h

theorem parseVersions_encode (vs : List Nat) (h : ∀ v ∈ vs, v < 2 ^ 32) :
    parseVersions (vs.flatMap (beBytes 4)) = vs := by
  induction vs with
  | nil =>
    rw [parseVersions.eq_def]
    simp
  | cons v vs ih =>
    rw [List.flatMap_cons, parseVersions.eq_def]
    have hlen : (beBytes 4 v).length = 4 := length_beBytes 4 v
    rw [dif_neg (by simp only [List.length_append, hlen]; omega)]
    rw [take_prefix_eq 4 _ _ hlen, drop_prefix_eq 4 _ _ hlen]
    rw [fromBe_beBytes 4 v (h v (by simp)), ih (fun w hw => h w (by simp [hw]))]

theorem clientHandshake_general (supported proposals : List Nat)
    (h32 : ∀ v ∈ proposals, v < 2 ^ 32) :
    clientHandshake supported proposals =
      (if ((proposals.take 4).find? (fun v => supported.contains v)).getD 0 = 0
        then .error .noCompatibleVersion
        else .ok (((proposals.take 4).find? (fun v => supported.contains v)).getD 0)) := by
  have hmagic : (magic ++ (proposals.take 4).flatMap (beBytes 4)).take 4 = magic :=
    take_prefix_eq 4 magic _ rfl
  have hdrop : (magic ++ (proposals.take 4).flatMap (beBytes 4)).drop 4
      = (proposals.take 4).flatMap (beBytes 4) := drop_prefix_eq 4 magic _ rfl
  have hpv : parseVersions ((proposals.take 4).flatMap (beBytes 4)) = proposals.take 4 :=
    parseVersions_encode _ (fun v hv => h32 v (List.mem_of_mem_take hv))
  have hlt : ((proposals.take 4).find? (fun v => supported.contains v)).getD 0 < 2 ^ 32 := by
    cases hf : (proposals.take 4).find? (fun v => supported.contains v) with
    | none => norm_num
    | some v =>
      simpa using h32 v (List.mem_of_mem_take (List.mem_of_find?_eq_some hf))
  simp only [clientHandshake, serverRespond, serverChoose, handshakeBytes]
  rw [hmagic, if_pos rfl, hdrop, hpv, take_len_beBytes, fromBe_beBytes 4 _ hlt]

/-- C5: the handshake writes the fixed 4-byte magic value followed by up to
four proposed versions, 4 bytes big-endian each, highest preference first;
against a server that picks the first proposal it supports, the negotiated
version is exactly the first supported proposal (in particular, proposing
[4,3,2,1] against a server supporting only 3 yields 3), and when no
proposal matches, the handshake fails with `noCompatibleVersion` and no
version is negotiated. -/
theorem handshake_version_negotiation :
    (∀ proposals, handshakeBytes proposals
        = magic ++ (proposals.take 4).flatMap (beBytes 4))
    ∧ (∀ supported proposals, (∀ v ∈ proposals, 0 < v ∧ v < 2 ^ 32) →
        clientHandshake supported proposals =
          match (proposals.take 4).find? (fun v => supported.contains v) with
          | some v => .ok v
          | none => .error .noCompatibleVersion)
    ∧ clientHandshake [3] [4, 3, 2, 1] = .ok 3
    ∧ (∀ supported proposals,
        (∀ v ∈ proposals, v < 2 ^ 32 ∧ ¬ supported.contains v = true) →
        clientHandshake supported proposals = .error .noCompatibleVersion) := by
  have hgen : ∀ supported proposals, (∀ v ∈ proposals, 0 < v ∧ v < 2 ^ 32) →
      clientHandshake supported proposals =
        match (proposals.take 4).find? (fun v => supported.contains v) with
        | some v => .ok v
        | none => .error .noCompatibleVersion := by
    intro supported proposals h
    rw [clientHandshake_general supported proposals (fun v hv => (h v hv).2)]
    cases hf : (proposals.take 4).find? (fun v => supported.contains v) with
    | none => rfl
    | some v =>
      have hpos : 0 < v :=
        (h v (List.mem_of_mem_take (List.mem_of_find?_eq_some hf))).1
      simp only [Option.getD_some]
      rw [if_neg (by omega)]
  refine ⟨fun _ => rfl, hgen, ?_, ?_⟩
  · rw [hgen [3] [4, 3, 2, 1] (by decide)]
    rfl
  · intro supported proposals h
    rw [clientHandshake_general supported proposals (fun v hv => (h v hv).1)]
    have hnone : (proposals.take 4).find? (fun v => supported.contains v) = none :=
      List.find?_eq_none.mpr (fun v hv => (h v (List.mem_of_mem_take hv)).2)
    rw [hnone]
    rfl

/-- C5 witness: the example lists of the claim, negotiated concretely. -/
theorem handshake_version_negotiation_witness :
    clientHandshake [3] [4, 3, 2, 1] = .ok 3
      ∧ clientHandshake [9] [4, 3, 2, 1] = .error .noCompatibleVersion :=
  ⟨handshake_version_negotiation.2.2.1,
    handshake_version_negotiation.2.2.2 [9] [4, 3, 2, 1] (by decide)⟩

theorem tryAcquire_preserves (s s' : PoolState) (c : Conn)
    (hacq : tryAcquire s = some (c, s'))
    (hs : poolSizeOk s) (hr : idleReady s) :
    poolSizeOk s' ∧ idleReady s' := by
  unfold tryAcquire at hacq
  cases hidle : s.idle with
  | cons d rest =>
    rw [hidle] at hacq
    simp only [Option.some.injEq, Prod.mk.injEq] at hacq
    rw [← hacq.2]
    constructor
    · rw [poolSizeOk, hidle] at hs
      simp only [poolSizeOk, List.length_cons] at hs ⊢
      omega
    · intro x hx
      simp only at hx
      exact hr x (by rw [hidle]; exact List.mem_cons_of_mem _ hx)
  | nil =>
    rw [hidle] at hacq
    by_cases hc : s.inUse.length < s.capacity
    · rw [if_pos hc] at hacq
      simp only [Option.some.injEq, Prod.mk.injEq] at hacq
      rw [← hacq.2]
      constructor
      · simp only [poolSizeOk, List.length_cons, hidle, List.length_nil]
        omega
      · intro x hx
        simp only at hx
        simp at hx
    · rw [if_neg hc] at hacq
      exact absurd hacq (by simp)

theorem poolStep_preserves (s : PoolState) (e : PoolEvent)
    (h : poolSizeOk s ∧ idleReady s) :
    poolSizeOk (poolStep s e) ∧ idleReady (poolStep s e) := by
  obtain ⟨hs, hr⟩ := h
  cases e with
  | acquire =>
    simp only [poolStep]
    cases htry : tryAcquire s with
    | some r =>
      obtain ⟨c, s'⟩ := r
      exact tryAcquire_preserves s s' c htry hs hr
    | none => exact ⟨hs, hr⟩
  | release cid st =>
    simp only [poolStep, releaseConn]
    by_cases hin : s.inUse.any (fun c => c.id == cid)
    · rw [if_pos hin]
      have hlt : (s.inUse.filter (fun c => c.id != cid)).length < s.inUse.length := by
        apply List.length_filter_lt_length_iff_exists.mpr
        obtain ⟨c, hc, hcid⟩ := List.any_eq_true.mp hin
        exact ⟨c, hc, by simp_all⟩
      by_cases hst : st = ConnState.ready
      · rw [if_pos hst]
        constructor
        · simp only [poolSizeOk, List.length_cons]
          rw [poolSizeOk] at hs
          omega
        · intro d hd
          rcases List.mem_cons.mp hd with rfl | hd
          · exact hst
          · exact hr d hd
      · rw [if_neg hst]
        refine ⟨?_, hr⟩
        simp only [poolSizeOk]
        rw [poolSizeOk] at hs
        omega
    · rw [if_neg hin]
      exact ⟨hs, hr⟩

theorem poolRun_preserves (es : List PoolEvent) (s : PoolState)
    (h : poolSizeOk s ∧ idleReady s) :
    poolSizeOk (poolRun s es) ∧ idleReady (poolRun s es) := by
  induction es generalizing s with
  | nil => exact h
  | cons e es ih => exact ih (poolStep s e) (poolStep_preserves s e h)

theorem tryAcquire_ready (s : PoolState) (h : idleReady s) (c : Conn)
    (s' : PoolState) (hacq : tryAcquire s = some (c, s')) :
    c.state = ConnState.ready := by
  unfold tryAcquire at hacq
  cases hidle : s.idle with
  | cons d rest =>
    rw [hidle] at hacq
    simp only [Option.some.injEq, Prod.mk.injEq] at hacq
    rw [← hacq.1]
    exact h d (by rw [hidle]; exact List.mem_cons_self d rest)
  | nil =>
    rw [hidle] at hacq
    by_cases hc : s.inUse.length < s.capacity
    · rw [if_pos hc] at hacq
      simp only [Option.some.injEq, Prod.mk.injEq] at hacq
      rw [← hacq.1]
    · rw [if_neg hc] at hacq
      exact absurd hacq (by simp)

/-- C2: across every sequence of acquire/release events starting from a
fresh pool, the bookkeeping satisfies |idle| + |in-use| ≤ capacity at all
times, only Ready connections ever sit in the idle list (a connection
released in a non-Ready state is dropped, never pooled), and every
connection handed out by acquire is in the Ready state. -/
theorem pool_capacity_invariant (capacity : Nat) (es : List PoolEvent) :
    poolSizeOk (poolRun (poolInit capacity) es)
      ∧ idleReady (poolRun (poolInit capacity) es)
      ∧ ∀ c s', tryAcquire (poolRun (poolInit capacity) es) = some (c, s') →
          c.state = ConnState.ready := by
  have h0 : poolSizeOk (poolInit capacity) ∧ idleReady (poolInit capacity) := by
    constructor
    · simp [poolSizeOk, poolInit]
    · intro c hc
      simp [poolInit] at hc
  have h := poolRun_preserves es (poolInit capacity) h0
  exact ⟨h.1, h.2, fun c s' hacq => tryAcquire_ready _ h.2 c s' hacq⟩

/-- C2 witness: the connection handed out by the very first acquire on a
fresh capacity-1 pool is Ready. -/
theorem pool_capacity_invariant_witness :
    (⟨0, ConnState.ready⟩ : Conn).state = ConnState.ready :=
  (pool_capacity_invariant 1 []).2.2 ⟨0, ConnState.ready⟩
    ⟨[], [⟨0, ConnState.ready⟩], 1, 1⟩ rfl

theorem acquireTimeout_blocked : ∀ (t : Nat) (s : PoolState),
    s.idle = [] → s.capacity ≤ s.inUse.length →
    acquireTimeout t [] s = .error .poolExhausted := by
  intro t
  induction t with
  | zero => intro s _ _; rfl
  | succ t ih =>
    intro s hidle hcap
    have hta : tryAcquire s = none := by
      unfold tryAcquire
      rw [hidle]
      exact if_neg (by omega)
    simp only [acquireTimeout, hta]
    exact ih s hidle hcap

theorem acquireTimeout_take : ∀ (t : Nat) (evs : List PoolEvent) (s : PoolState),
    acquireTimeout t evs s = acquireTimeout t (evs.take t) s := by
  intro t
  induction t with
  | zero => intro evs s; rfl
  | succ t ih =>
    intro evs s
    cases evs with
    | nil => rfl
    | cons e rest =>
      rw [List.take_succ_cons]
      cases h : tryAcquire s with
      | some r => simp only [acquireTimeout, h]
      | none =>
        simp only [acquireTimeout, h]
        exact ih rest (poolStep s e)

/-- C9: an acquire call consults the pool for at most its caller-supplied
timeout of waiting ticks (later events are never inspected), and when the
pool has no idle connection, is at capacity, and no release arrives within
the bound, the call fails with `poolExhausted`. -/
theorem acquire_timeout_bound :
    (∀ (t : Nat) (evs : List PoolEvent) (s : PoolState),
        acquireTimeout t evs s = acquireTimeout t (evs.take t) s)
    ∧ ∀ (t : Nat) (s : PoolState), s.idle = [] → s.capacity ≤ s.inUse.length →
        acquireTimeout t [] s = .error .poolExhausted :=
  ⟨acquireTimeout_take, acquireTimeout_blocked⟩

/-- C9 witness: a capacity-1 pool whose only connection is leased and
streaming exhausts a 2-tick acquire with `poolExhausted`. -/
theorem acquire_timeout_bound_witness :
    acquireTimeout 2 [] ⟨[], [⟨0, ConnState.streaming⟩], 1, 1⟩
      = .error .poolExhausted :=
  acquire_timeout_bound.2 2 ⟨[], [⟨0, ConnState.streaming⟩], 1, 1⟩ rfl
    (by decide)

/-- C4: a server FAILURE response poisons an Active transaction; while the
transaction is Failed, every operation other than an explicit
rollback/reset is rejected locally with `transactionFailed` and sends no
message to the server, the transaction stays Failed; commit after rollback
is rejected with `transactionError` (again sending nothing); and explicit
rollback/reset clears the poisoning, moving Failed to RolledBack. -/
theorem txn_poisoned_rejects_locally (op : TxnOp) :
    onServerFailure .active = .failed
      ∧ (op ≠ .rollback → op ≠ .reset →
          txnStep .failed op = (.error .transactionFailed, [], .failed))
      ∧ txnStep .rolledBack .commit = (.error .transactionError, [], .rolledBack)
      ∧ txnStep .failed .rollback = (.ok (), [.rollback], .rolledBack)
      ∧ txnStep .failed .reset = (.ok (), [.reset], .rolledBack) := by
  refine ⟨rfl, ?_, rfl, rfl, rfl⟩
  intro h1 h2
  cases op
  · rfl
  · rfl
  · rfl
  · rfl
  · exact absurd rfl h1
  · exact absurd rfl h2

/-- C4 witness: commit on a poisoned transaction is rejected locally with
nothing sent. -/
theorem txn_poisoned_witness :
    txnStep .failed .commit = (.error .transactionFailed, [], .failed) :=
  (txn_poisoned_rejects_locally .commit).2.1 (by decide) (by decide)

theorem streamNext_cons {α : Type} (s : StreamState α) (r : α) (rest : List α)
    (hf : 0 < s.fetchSize) (hinv : streamInv s)
    (h : streamRemaining s = r :: rest) :
    ∃ s', streamNext s = (some r, s')
      ∧ streamRemaining s' = rest ∧ streamInv s' ∧ s'.fetchSize = s.fetchSize := by
  unfold streamRemaining at h
  unfold streamNext
  cases hb : s.buffer with
  | cons b brest =>
    rw [hb, List.cons_append] at h
    obtain ⟨rfl, hrest⟩ : b = r ∧ brest ++ s.pending = rest := by
      simpa using h
    exact ⟨_, rfl, by simpa [streamRemaining] using hrest, hinv, rfl⟩
  | nil =>
    rw [hb, List.nil_append] at h
    have hfin : s.finished = false := by
      cases hfin : s.finished
      · rfl
      · rw [hinv hfin] at h
        exact absurd h (by simp)
    rw [hfin]
    obtain ⟨k, hk⟩ : ∃ k, s.fetchSize = k + 1 := ⟨s.fetchSize - 1, by omega⟩
    rw [if_neg (by simp)]
    rw [hk, h, List.take_succ_cons, List.drop_succ_cons]
    refine ⟨_, rfl, ?_, ?_, rfl⟩
    · simp [streamRemaining, List.take_append_drop]
    · intro hfin2
      simp only at hfin2 ⊢
      exact List.isEmpty_iff.mp hfin2

theorem streamNext_nil {α : Type} (s : StreamState α) (hinv : streamInv s)
    (h : streamRemaining s = []) :
    ∃ s', streamNext s = (none, s')
      ∧ streamRemaining s' = [] ∧ streamInv s' ∧ s'.fetchSize = s.fetchSize := by
  unfold streamRemaining at h
  obtain ⟨hb, hp⟩ := List.append_eq_nil.mp h
  unfold streamNext
  rw [hb]
  cases hfin : s.finished with
  | true =>
    rw [if_pos rfl]
    exact ⟨s, rfl, h, hinv, rfl⟩
  | false =>
    rw [if_neg (by simp)]
    rw [hp, List.take_nil]
    refine ⟨_, rfl, ?_, ?_, rfl⟩
    · simp [streamRemaining, hb, hp]
    · intro _
      rfl

theorem streamTrace_spec {α : Type} :
    ∀ (n : Nat) (s : StreamState α), 0 < s.fetchSize → streamInv s →
      streamTrace n s =
        ((streamRemaining s).take n).map some
          ++ List.replicate (n - (streamRemaining s).length) none := by
  intro n
  induction n with
  | zero =>
    intro s _ _
    simp [streamTrace]
  | succ n ih =>
    intro s hf hinv
    cases hr : streamRemaining s with
    | cons r rest =>
      obtain ⟨s', hnext, hrem, hinv', hfs⟩ := streamNext_cons s r rest hf hinv hr
      simp only [streamTrace, hnext]
      have hind := ih s' (hfs ▸ hf) hinv'
      rw [hrem] at hind
      rw [hind, List.take_succ_cons]
      simp

    | nil =>
      obtain ⟨s', hnext, hrem, hinv', hfs⟩ := streamNext_nil s hinv hr
      simp only [streamTrace, hnext]
      have hind := ih s' (hfs ▸ hf) hinv'
      rw [hrem] at hind
      rw [hind]
      simp [List.replicate_succ]

/-- C8: over a stream initialized with the server's records in send order
and any positive PULL batch size, the outcomes of the first n calls of
RowStream.next are exactly the records in server-send order (buffered
records are dequeued before any further PULL is issued), and once the
terminal summary is seen every subsequent call reports end-of-stream
(none). -/
theorem rowStream_order {α : Type} (rows : List α) (k n : Nat) (hk : 0 < k) :
    streamTrace n (streamInit rows k) =
      (rows.take n).map some ++ List.replicate (n - rows.length) none := by
  have hinv : streamInv (streamInit rows k) := by
    intro h
    simp [streamInit] at h
  have h := streamTrace_spec n (streamInit rows k) hk hinv
  simpa [streamRemaining, streamInit] using h

/-- C8 witness: three records with batch size 2 are returned in order over
five next() calls, the last two calls reporting end-of-stream. -/
theorem rowStream_order_witness :
    streamTrace 5 (streamInit [1, 2, 3] 2) =
      ([1, 2, 3].take 5).map some
        ++ List.replicate (5 - [1, 2, 3].length) none :=
  rowStream_order [1, 2, 3] 2 5 (by decide)

/-- C10: constructing a Graph performs no network I/O — `create_pool` is
infallible and the fresh pool holds no connections (so no handshake or
authentication has happened), `Graph.connect` always returns Ok, and
`Graph.new` — which supplies all three required configuration fields —
succeeds outright, so a failure of `Graph.new` could only ever come from
the configuration-building step; connection and authentication errors can
surface only later, when an operation first acquires a connection. -/
theorem graph_construction_local (u us p : String) (c : Config) :
    ((create_pool u us p).idle = [] ∧ (create_pool u us p).inUse = [])
      ∧ Graph.connect c = .ok ⟨c, create_pool c.uri c.user c.password⟩
      ∧ Graph.new u us p = .ok ⟨⟨u, us, p⟩, create_pool u us p⟩ :=
  ⟨⟨rfl, rfl⟩, rfl, rfl⟩

theorem decodeF_succ (fuel : Nat) (input : List Nat) :
    decodeF (fuel + 1) input = decodeOne (decodeF fuel) input := rfl

theorem decodeOne_cons (d : List Nat → Except Err (WireValue × List Nat))
    (m : Nat) (input : List Nat) :
    decodeOne d (m :: input) = decodeMarker d m input := rfl

theorem decodeStrV_cons (m : Nat) (input : List Nat) :
    decodeStrV (m :: input) = decodeStrMarker m input := rfl

theorem list_sizeOf_pos {α : Type} [SizeOf α] (l : List α) : 1 ≤ sizeOf l := by
  cases l <;> simp <;> omega

theorem fromBe_singleton (b : Nat) : fromBe [b] = b := by
  simp [fromBe]

theorem readLen_byte (n : Nat) (rest : List Nat) :
    readLen 1 (n :: rest) = .ok (n, rest) := by
  have h := takeExact_front 1 [n] rest rfl
  simp only [List.cons_append, List.nil_append] at h
  unfold readLen
  simp only [h, fromBe_singleton]

theorem readLen_be (w n : Nat) (h : n < 256 ^ w) (rest : List Nat) :
    readLen w (beBytes w n ++ rest) = .ok (n, rest) := by
  unfold readLen
  simp only [takeExact_front w _ _ (length_beBytes w n), fromBe_beBytes w n h]

theorem encodeIntV_length_pos (i : Int) : 1 ≤ (encodeIntV i).length := by
  unfold encodeIntV toTwos
  split_ifs <;> simp [length_beBytes]

theorem strHeader_length_pos (n : Nat) : 1 ≤ (strHeader n).length := by
  unfold strHeader
  split_ifs <;> simp [length_beBytes]

theorem listHeader_length_pos (n : Nat) : 1 ≤ (listHeader n).length := by
  unfold listHeader
  split_ifs <;> simp [length_beBytes]

theorem mapHeader_length_pos (n : Nat) : 1 ≤ (mapHeader n).length := by
  unfold mapHeader
  split_ifs <;> simp [length_beBytes]

theorem bytesHeader_length_pos (n : Nat) : 1 ≤ (bytesHeader n).length := by
  unfold bytesHeader
  split_ifs <;> simp [length_beBytes]

theorem decodeItemsGo_zero (d : List Nat → Except Err (WireValue × List Nat))
    (input : List Nat) : decodeItemsGo d 0 input = .ok ([], input) := rfl

theorem decodeItemsGo_step (d : List Nat → Except Err (WireValue × List Nat))
    (n : Nat) (input r r2 : List Nat) (v : WireValue) (vs : List WireValue)
    (h1 : d input = .ok (v, r))
    (h2 : decodeItemsGo d n r = .ok (vs, r2)) :
    decodeItemsGo d (n + 1) input = .ok (v :: vs, r2) := by
  simp only [decodeItemsGo, h1, h2]

theorem decodeEntriesGo_step (d : List Nat → Except Err (WireValue × List Nat))
    (n : Nat) (input r r2 r3 : List Nat) (k : List Nat) (v : WireValue)
    (kvs : List (List Nat × WireValue))
    (h1 : decodeStrV input = .ok (k, r))
    (h2 : d r = .ok (v, r2))
    (h3 : decodeEntriesGo d n r2 = .ok (kvs, r3)) :
    decodeEntriesGo d (n + 1) input = .ok ((k, v) :: kvs, r3) := by
  simp only [decodeEntriesGo, h1, h2, h3]

theorem decodeMarker_tinyPos (d : List Nat → Except Err (WireValue × List Nat))
    (m : Nat) (h : m < 0x80) (input : List Nat) :
    decodeMarker d m input = .ok (.integer m, input) := by
  unfold decodeMarker
  rw [if_pos h]

theorem decodeMarker_tinyNeg (d : List Nat → Except Err (WireValue × List Nat))
    (m : Nat) (h1 : 0xF0 ≤ m) (h2 : m < 0x100) (input : List Nat) :
    decodeMarker d m input = .ok (.integer ((m : Int) - 256), input) := by
  unfold decodeMarker
  rw [if_neg (by omega), if_pos ⟨h1, h2⟩]

theorem decodeMarker_tinyStr (d : List Nat → Except Err (WireValue × List Nat))
    (n : Nat) (h : n < 16) (input : List Nat) :
    decodeMarker d (0x80 + n) input =
      (match takePayload n input with
        | .error e => .error e
        | .ok (s, r) => .ok (.string s, r)) := by
  unfold decodeMarker
  rw [if_neg (by omega), if_neg (by omega), if_pos (by omega)]
  simp only [Nat.add_sub_cancel_left]

theorem decodeMarker_tinyList (d : List Nat → Except Err (WireValue × List Nat))
    (n : Nat) (h : n < 16) (input : List Nat) :
    decodeMarker d (0x90 + n) input =
      (match decodeItemsGo d n input with
        | .error e => .error e
        | .ok (vs, r) => .ok (.list vs, r)) := by
  unfold decodeMarker
  rw [if_neg (by omega), if_neg (by omega), if_neg (by omega), if_pos (by omega)]
  simp only [Nat.add_sub_cancel_left]

theorem decodeMarker_tinyMap (d : List Nat → Except Err (WireValue × List Nat))
    (n : Nat) (h : n < 16) (input : List Nat) :
    decodeMarker d (0xA0 + n) input =
      (match decodeEntriesGo d n input with
        | .error e => .error e
        | .ok (kvs, r) => .ok (.map kvs, r)) := by
  unfold decodeMarker
  rw [if_neg (by omega), if_neg (by omega), if_neg (by omega), if_neg (by omega),
    if_pos (by omega)]
  simp only [Nat.add_sub_cancel_left]

theorem decodeMarker_tinyStruct (d : List Nat → Except Err (WireValue × List Nat))
    (n : Nat) (h : n < 16) (tag : Nat) (r2 : List Nat) :
    decodeMarker d (0xB0 + n) (tag :: r2) =
      (match decodeItemsGo d n r2 with
        | .error e => .error e
        | .ok (fields, r3) =>
          match mkStruct tag fields with
          | .error e => .error e
          | .ok v => .ok (v, r3)) := by
  unfold decodeMarker
  rw [if_neg (by omega), if_neg (by omega), if_neg (by omega), if_neg (by omega),
    if_neg (by omega), if_pos (by omega)]
  simp only [Nat.add_sub_cancel_left]

theorem decodeMarker_float (d : List Nat → Except Err (WireValue × List Nat))
    (input : List Nat) :
    decodeMarker d 0xC1 input =
      (match takeExact 8 input with
        | .error e => .error e
        | .ok (b8, r) => .ok (.float (fromBe b8), r)) := rfl

theorem decodeMarker_int8 (d : List Nat → Except Err (WireValue × List Nat))
    (input : List Nat) : decodeMarker d 0xC8 input = decodeIntW 1 input := rfl

theorem decodeMarker_int16 (d : List Nat → Except Err (WireValue × List Nat))
    (input : List Nat) : decodeMarker d 0xC9 input = decodeIntW 2 input := rfl

theorem decodeMarker_int32 (d : List Nat → Except Err (WireValue × List Nat))
    (input : List Nat) : decodeMarker d 0xCA input = decodeIntW 4 input := rfl

theorem decodeMarker_int64 (d : List Nat → Except Err (WireValue × List Nat))
    (input : List Nat) : decodeMarker d 0xCB input = decodeIntW 8 input := rfl

theorem decodeMarker_bytes8 (d : List Nat → Except Err (WireValue × List Nat))
    (input : List Nat) :
    decodeMarker d 0xCC input =
      (match readLen 1 input with
        | .error e => .error e
        | .ok (n, r) =>
          match takePayload n r with
          | .error e => .error e
          | .ok (bs, r2) => .ok (.bytes bs, r2)) := rfl

theorem decodeMarker_bytes16 (d : List Nat → Except Err (WireValue × List Nat))
    (input : List Nat) :
    decodeMarker d 0xCD input =
      (match readLen 2 input with
        | .error e => .error e
        | .ok (n, r) =>
          match takePayload n r with
          | .error e => .error e
          | .ok (bs, r2) => .ok (.bytes bs, r2)) := rfl

theorem decodeMarker_bytes32 (d : List Nat → Except Err (WireValue × List Nat))
    (input : List Nat) :
    decodeMarker d 0xCE input =
      (match readLen 4 input with
        | .error e => .error e
        | .ok (n, r) =>
          match takePayload n r with
          | .error e => .error e
          | .ok (bs, r2) => .ok (.bytes bs, r2)) := rfl

theorem decodeMarker_str8 (d : List Nat → Except Err (WireValue × List Nat))
    (input : List Nat) :
    decodeMarker d 0xD0 input =
      (match readLen 1 input with
        | .error e => .error e
        | .ok (n, r) =>
          match takePayload n r with
          | .error e => .error e
          | .ok (s, r2) => .ok (.string s, r2)) := rfl

theorem decodeMarker_str16 (d : List Nat → Except Err (WireValue × List Nat))
    (input : List Nat) :
    decodeMarker d 0xD1 input =
      (match readLen 2 input with
        | .error e => .error e
        | .ok (n, r) =>
          match takePayload n r with
          | .error e => .error e
          | .ok (s, r2) => .ok (.string s, r2)) := rfl

theorem decodeMarker_str32 (d : List Nat → Except Err (WireValue × List Nat))
    (input : List Nat) :
    decodeMarker d 0xD2 input =
      (match readLen 4 input with
        | .error e => .error e
        | .ok (n, r) =>
          match takePayload n r with
          | .error e => .error e
          | .ok (s, r2) => .ok (.string s, r2)) := rfl

theorem decodeMarker_list8 (d : List Nat → Except Err (WireValue × List Nat))
    (input : List Nat) :
    decodeMarker d 0xD4 input =
      (match readLen 1 input with
        | .error e => .error e
        | .ok (n, r) =>
          match decodeItemsGo d n r with
          | .error e => .error e
          | .ok (vs, r2) => .ok (.list vs, r2)) := rfl

theorem decodeMarker_list16 (d : List Nat → Except Err (WireValue × List Nat))
    (input : List Nat) :
    decodeMarker d 0xD5 input =
      (match readLen 2 input with
        | .error e => .error e
        | .ok (n, r) =>
          match decodeItemsGo d n r with
          | .error e => .error e
          | .ok (vs, r2) => .ok (.list vs, r2)) := rfl

theorem decodeMarker_list32 (d : List Nat → Except Err (WireValue × List Nat))
    (input : List Nat) :
    decodeMarker d 0xD6 input =
      (match readLen 4 input with
        | .error e => .error e
        | .ok (n, r) =>
          match decodeItemsGo d n r with
          | .error e => .error e
          | .ok (vs, r2) => .ok (.list vs, r2)) := rfl

theorem decodeMarker_map8 (d : List Nat → Except Err (WireValue × List Nat))
    (input : List Nat) :
    decodeMarker d 0xD8 input =
      (match readLen 1 input with
        | .error e => .error e
        | .ok (n, r) =>
          match decodeEntriesGo d n r with
          | .error e => .error e
          | .ok (kvs, r2) => .ok (.map kvs, r2)) := rfl

theorem decodeMarker_map16 (d : List Nat → Except Err (WireValue × List Nat))
    (input : List Nat) :
    decodeMarker d 0xD9 input =
      (match readLen 2 input with
        | .error e => .error e
        | .ok (n, r) =>
          match decodeEntriesGo d n r with
          | .error e => .error e
          | .ok (kvs, r2) => .ok (.map kvs, r2)) := rfl

theorem decodeMarker_map32 (d : List Nat → Except Err (WireValue × List Nat))
    (input : List Nat) :
    decodeMarker d 0xDA input =
      (match readLen 4 input with
        | .error e => .error e
        | .ok (n, r) =>
          match decodeEntriesGo d n r with
          | .error e => .error e
          | .ok (kvs, r2) => .ok (.map kvs, r2)) := rfl

theorem decodeIntW_toTwos (w : Nat) (hw : w = 1 ∨ w = 2 ∨ w = 4 ∨ w = 8)
    (i : Int) (rest : List Nat)
    (hlo : -(2 ^ (8 * w - 1)) ≤ i) (hhi : i < 2 ^ (8 * w - 1)) :
    decodeIntW w (toTwos w i ++ rest) = .ok (.integer i, rest) := by
  unfold decodeIntW toTwos
  simp only [takeExact_front w _ _ (length_beBytes w _)]
  rcases hw with rfl | rfl | rfl | rfl
  · rw [fromBe_beBytes 1 ((i % (2 ^ (8 * 1) : Int)).toNat) (by norm_num at hlo hhi ⊢; omega)]
    have he : fromTwos 1 ((i % (2 ^ (8 * 1) : Int)).toNat) = i := by
      unfold fromTwos
      norm_num at hlo hhi ⊢
      split <;> omega
    rw [he]
  · rw [fromBe_beBytes 2 ((i % (2 ^ (8 * 2) : Int)).toNat) (by norm_num at hlo hhi ⊢; omega)]
    have he : fromTwos 2 ((i % (2 ^ (8 * 2) : Int)).toNat) = i := by
      unfold fromTwos
      norm_num at hlo hhi ⊢
      split <;> omega
    rw [he]
  · rw [fromBe_beBytes 4 ((i % (2 ^ (8 * 4) : Int)).toNat) (by norm_num at hlo hhi ⊢; omega)]
    have he : fromTwos 4 ((i % (2 ^ (8 * 4) : Int)).toNat) = i := by
      unfold fromTwos
      norm_num at hlo hhi ⊢
      split <;> omega
    rw [he]
  · rw [fromBe_beBytes 8 ((i % (2 ^ (8 * 8) : Int)).toNat) (by norm_num at hlo hhi ⊢; omega)]
    have he : fromTwos 8 ((i % (2 ^ (8 * 8) : Int)).toNat) = i := by
      unfold fromTwos
      norm_num at hlo hhi ⊢
      split <;> omega
    rw [he]

theorem decodeF_intV (f : Nat) (i : Int) (rest : List Nat)
    (hlo : -(2 ^ 63) ≤ i) (hhi : i < 2 ^ 63) :
    decodeF (f + 1) (encodeIntV i ++ rest) = .ok (.integer i, rest) := by
  rw [decodeF_succ]
  unfold encodeIntV
  by_cases h1 : -16 ≤ i ∧ i ≤ 127
  · rw [if_pos h1, List.singleton_append, decodeOne_cons]
    by_cases h2 : 0 ≤ i
    · rw [decodeMarker_tinyPos _ _ (by omega)]
      have he : ((i % (256 : Int)).toNat : Int) = i := by omega
      rw [he]
    · rw [decodeMarker_tinyNeg _ _ (by omega) (by omega)]
      have he : (((i % (256 : Int)).toNat : Int) - 256) = i := by omega
      rw [he]
  · rw [if_neg h1]
    by_cases h2 : -128 ≤ i ∧ i ≤ 127
    · rw [if_pos h2, List.cons_append, decodeOne_cons, decodeMarker_int8,
        decodeIntW_toTwos 1 (by norm_num) i rest (by norm_num; omega) (by norm_num; omega)]
    · rw [if_neg h2]
      by_cases h3 : -32768 ≤ i ∧ i ≤ 32767
      · rw [if_pos h3, List.cons_append, decodeOne_cons, decodeMarker_int16,
          decodeIntW_toTwos 2 (by norm_num) i rest (by norm_num; omega) (by norm_num; omega)]
      · rw [if_neg h3]
        by_cases h4 : -2147483648 ≤ i ∧ i ≤ 2147483647
        · rw [if_pos h4, List.cons_append, decodeOne_cons, decodeMarker_int32,
            decodeIntW_toTwos 4 (by norm_num) i rest (by norm_num; omega) (by norm_num; omega)]
        · rw [if_neg h4, List.cons_append, decodeOne_cons, decodeMarker_int64,
            decodeIntW_toTwos 8 (by norm_num) i rest (by norm_num; omega) (by norm_num; omega)]

theorem decodeStrV_encodeStr (s rest : List Nat) (h : s.length < 2 ^ 32) :
    decodeStrV (encodeStr s ++ rest) = .ok (s, rest) := by
  unfold encodeStr strHeader
  by_cases h1 : s.length < 16
  · rw [if_pos h1]
    simp only [List.cons_append, List.nil_append, List.append_assoc]
    rw [decodeStrV_cons]
    unfold decodeStrMarker
    rw [if_pos (by omega)]
    simp only [Nat.add_sub_cancel_left]
    exact takePayload_front s.length s rest rfl
  · rw [if_neg h1]
    by_cases h2 : s.length < 256
    · rw [if_pos h2]
      simp only [List.cons_append, List.nil_append, List.append_assoc]
      rw [decodeStrV_cons]
      unfold decodeStrMarker
      rw [if_neg (by omega), if_pos rfl]
      simp only [readLen_byte, takePayload_front s.length s rest rfl]
    · rw [if_neg h2]
      by_cases h3 : s.length < 65536
      · rw [if_pos h3]
        simp only [List.cons_append, List.nil_append, List.append_assoc]
        rw [decodeStrV_cons]
        unfold decodeStrMarker
        rw [if_neg (by omega), if_neg (by omega), if_pos rfl]
        simp only [readLen_be 2 s.length (by norm_num; omega) (s ++ rest),
          takePayload_front s.length s rest rfl]
      · rw [if_neg h3]
        simp only [List.cons_append, List.nil_append, List.append_assoc]
        rw [decodeStrV_cons]
        unfold decodeStrMarker
        rw [if_neg (by omega), if_neg (by omega), if_neg (by omega), if_pos rfl]
        simp only [readLen_be 4 s.length (by norm_num at h ⊢; omega) (s ++ rest),
          takePayload_front s.length s rest rfl]

theorem decodeOne_str (d : List Nat → Except Err (WireValue × List Nat))
    (s rest : List Nat) (h : s.length < 2 ^ 32) :
    decodeOne d (encodeStr s ++ rest) = .ok (.string s, rest) := by
  unfold encodeStr strHeader
  by_cases h1 : s.length < 16
  · rw [if_pos h1]
    simp only [List.cons_append, List.nil_append, List.append_assoc]
    rw [decodeOne_cons, decodeMarker_tinyStr d s.length h1]
    simp only [takePayload_front s.length s rest rfl]
  · rw [if_neg h1]
    by_cases h2 : s.length < 256
    · rw [if_pos h2]
      simp only [List.cons_append, List.nil_append, List.append_assoc]
      rw [decodeOne_cons, decodeMarker_str8]
      simp only [readLen_byte, takePayload_front s.length s rest rfl]
    · rw [if_neg h2]
      by_cases h3 : s.length < 65536
      · rw [if_pos h3]
        simp only [List.cons_append, List.nil_append, List.append_assoc]
        rw [decodeOne_cons, decodeMarker_str16]
        simp only [readLen_be 2 s.length (by norm_num; omega) (s ++ rest),
          takePayload_front s.length s rest rfl]
      · rw [if_neg h3]
        simp only [List.cons_append, List.nil_append, List.append_assoc]
        rw [decodeOne_cons, decodeMarker_str32]
        simp only [readLen_be 4 s.length (by norm_num at h ⊢; omega) (s ++ rest),
          takePayload_front s.length s rest rfl]

theorem decodeF_string (f : Nat) (s rest : List Nat) (h : s.length < 2 ^ 32) :
    decodeF (f + 1) (encodeStr s ++ rest) = .ok (.string s, rest) := by
  rw [decodeF_succ]
  exact decodeOne_str _ s rest h

theorem decodeOne_float (d : List Nat → Except Err (WireValue × List Nat))
    (bits : Nat) (rest : List Nat) (h : bits < 2 ^ 64) :
    decodeOne d ((0xC1 :: beBytes 8 bits) ++ rest) = .ok (.float bits, rest) := by
  rw [List.cons_append, decodeOne_cons, decodeMarker_float]
  simp only [takeExact_front 8 _ _ (length_beBytes 8 bits),
    fromBe_beBytes 8 bits (by norm_num at h ⊢; omega)]

theorem decodeOne_bytes (d : List Nat → Except Err (WireValue × List Nat))
    (bs rest : List Nat) (h : bs.length < 2 ^ 32) :
    decodeOne d ((bytesHeader bs.length ++ bs) ++ rest) = .ok (.bytes bs, rest) := by
  unfold bytesHeader
  by_cases h1 : bs.length < 256
  · rw [if_pos h1]
    simp only [List.cons_append, List.nil_append, List.append_assoc]
    rw [decodeOne_cons, decodeMarker_bytes8]
    simp only [readLen_byte, takePayload_front bs.length bs rest rfl]
  · rw [if_neg h1]
    by_cases h2 : bs.length < 65536
    · rw [if_pos h2]
      simp only [List.cons_append, List.nil_append, List.append_assoc]
      rw [decodeOne_cons, decodeMarker_bytes16]
      simp only [readLen_be 2 bs.length (by norm_num; omega) (bs ++ rest),
        takePayload_front bs.length bs rest rfl]
    · rw [if_neg h2]
      simp only [List.cons_append, List.nil_append, List.append_assoc]
      rw [decodeOne_cons, decodeMarker_bytes32]
      simp only [readLen_be 4 bs.length (by norm_num at h ⊢; omega) (bs ++ rest),
        takePayload_front bs.length bs rest rfl]

theorem decodeOne_list (d : List Nat → Except Err (WireValue × List Nat))
    (n : Nat) (h : n < 2 ^ 32) (input : List Nat) :
    decodeOne d (listHeader n ++ input) =
      (match decodeItemsGo d n input with
        | .error e => .error e
        | .ok (vs, r) => .ok (.list vs, r)) := by
  unfold listHeader
  by_cases h1 : n < 16
  · rw [if_pos h1]
    simp only [List.cons_append, List.nil_append, List.append_assoc]
    rw [decodeOne_cons, decodeMarker_tinyList d n h1]
  · rw [if_neg h1]
    by_cases h2 : n < 256
    · rw [if_pos h2]
      simp only [List.cons_append, List.nil_append, List.append_assoc]
      rw [decodeOne_cons, decodeMarker_list8]
      simp only [readLen_byte]
    · rw [if_neg h2]
      by_cases h3 : n < 65536
      · rw [if_pos h3]
        simp only [List.cons_append, List.nil_append, List.append_assoc]
        rw [decodeOne_cons, decodeMarker_list16]
        simp only [readLen_be 2 n (by norm_num; omega) input]
      · rw [if_neg h3]
        simp only [List.cons_append, List.nil_append, List.append_assoc]
        rw [decodeOne_cons, decodeMarker_list32]
        simp only [readLen_be 4 n (by norm_num at h ⊢; omega) input]

theorem decodeOne_map (d : List Nat → Except Err (WireValue × List Nat))
    (n : Nat) (h : n < 2 ^ 32) (input : List Nat) :
    decodeOne d (mapHeader n ++ input) =
      (match decodeEntriesGo d n input with
        | .error e => .error e
        | .ok (kvs, r) => .ok (.map kvs, r)) := by
  unfold mapHeader
  by_cases h1 : n < 16
  · rw [if_pos h1]
    simp only [List.cons_append, List.nil_append, List.append_assoc]
    rw [decodeOne_cons, decodeMarker_tinyMap d n h1]
  · rw [if_neg h1]
    by_cases h2 : n < 256
    · rw [if_pos h2]
      simp only [List.cons_append, List.nil_append, List.append_assoc]
      rw [decodeOne_cons, decodeMarker_map8]
      simp only [readLen_byte]
    · rw [if_neg h2]
      by_cases h3 : n < 65536
      · rw [if_pos h3]
        simp only [List.cons_append, List.nil_append, List.append_assoc]
        rw [decodeOne_cons, decodeMarker_map16]
        simp only [readLen_be 2 n (by norm_num; omega) input]
      · rw [if_neg h3]
        simp only [List.cons_append, List.nil_append, List.append_assoc]
        rw [decodeOne_cons, decodeMarker_map32]
        simp only [readLen_be 4 n (by norm_num at h ⊢; omega) input]

theorem decodeItemsGo_strings (fuel : Nat) (hf : 1 ≤ fuel) (ls : List (List Nat))
    (h : ∀ l ∈ ls, l.length < 2 ^ 32) :
    ∀ rest, decodeItemsGo (decodeF fuel) ls.length ((ls.map encodeStr).flatten ++ rest)
      = .ok (ls.map .string, rest) := by
  induction ls with
  | nil =>
    intro rest
    simp [decodeItemsGo]
  | cons l ls ih =>
    intro rest
    obtain ⟨g, hg⟩ : ∃ g, fuel = g + 1 := ⟨fuel - 1, by omega⟩
    simp only [List.map_cons, List.flatten_cons, List.append_assoc, List.length_cons]
    refine decodeItemsGo_step _ _ _ _ _ _ _ ?_ (ih (fun x hx => h x (by simp [hx])) rest)
    rw [hg]
    exact decodeF_string g l _ (h l (by simp))

theorem decodeF_strList (fuel : Nat) (hf : 2 ≤ fuel) (ls : List (List Nat))
    (hlen : ls.length < 2 ^ 32) (h : ∀ l ∈ ls, l.length < 2 ^ 32) (rest : List Nat) :
    decodeF fuel (encodeStrList ls ++ rest) = .ok (.list (ls.map .string), rest) := by
  obtain ⟨f, rfl⟩ : ∃ f, fuel = f + 1 := ⟨fuel - 1, by omega⟩
  rw [decodeF_succ]
  unfold encodeStrList
  rw [List.append_assoc, decodeOne_list _ ls.length hlen _]
  simp only [decodeItemsGo_strings f (by omega) ls h rest]

theorem decodeItemsGo_ints (fuel : Nat) (hf : 1 ≤ fuel) (is : List Int)
    (h : ∀ i ∈ is, -(2 ^ 63) ≤ i ∧ i < 2 ^ 63) :
    ∀ rest, decodeItemsGo (decodeF fuel) is.length ((is.map encodeIntV).flatten ++ rest)
      = .ok (is.map .integer, rest) := by
  induction is with
  | nil =>
    intro rest
    simp [decodeItemsGo]
  | cons i is ih =>
    intro rest
    obtain ⟨g, hg⟩ : ∃ g, fuel = g + 1 := ⟨fuel - 1, by omega⟩
    simp only [List.map_cons, List.flatten_cons, List.append_assoc, List.length_cons]
    refine decodeItemsGo_step _ _ _ _ _ _ _ ?_ (ih (fun x hx => h x (by simp [hx])) rest)
    rw [hg]
    exact decodeF_intV g i _ (h i (by simp)).1 (h i (by simp)).2

theorem decodeF_intList (fuel : Nat) (hf : 2 ≤ fuel) (is : List Int)
    (hlen : is.length < 2 ^ 32) (h : ∀ i ∈ is, -(2 ^ 63) ≤ i ∧ i < 2 ^ 63)
    (rest : List Nat) :
    decodeF fuel (encodeIntList is ++ rest) = .ok (.list (is.map .integer), rest) := by
  obtain ⟨f, rfl⟩ : ∃ f, fuel = f + 1 := ⟨fuel - 1, by omega⟩
  rw [decodeF_succ]
  unfold encodeIntList
  rw [List.append_assoc, decodeOne_list _ is.length hlen _]
  simp only [decodeItemsGo_ints f (by omega) is h rest]

theorem asStrings_map (ls : List (List Nat)) : asStrings (ls.map .string) = some ls := by
  induction ls with
  | nil => rfl
  | cons l ls ih => simp [asStrings, ih]

theorem asInts_map (is : List Int) : asInts (is.map .integer) = some is := by
  induction is with
  | nil => rfl
  | cons i is ih => simp [asInts, ih]

theorem wfItems_mem (items : List WireValue) (hwf : wfItems items = true) :
    ∀ x ∈ items, wfV x = true := by
  induction items with
  | nil => simp
  | cons v vs ih =>
    rw [wfItems, Bool.and_eq_true] at hwf
    intro x hx
    rcases List.mem_cons.mp hx with rfl | hx
    · exact hwf.1
    · exact ih hwf.2 x hx

theorem wfEntries_mem (entries : List (List Nat × WireValue))
    (hwf : wfEntries entries = true) :
    ∀ p ∈ entries, p.1.length < 2 ^ 32 ∧ wfV p.2 = true := by
  induction entries with
  | nil => simp
  | cons p kvs ih =>
    obtain ⟨k, v⟩ := p
    rw [wfEntries] at hwf
    simp only [Bool.and_eq_true, decide_eq_true_eq] at hwf
    intro q hq
    rcases List.mem_cons.mp hq with rfl | hq
    · exact ⟨hwf.1.1.1, hwf.1.2⟩
    · exact ih hwf.2 q hq

theorem decodeItemsGo_encodeItems (fuel : Nat) (items : List WireValue)
    (IH : ∀ x ∈ items, ∀ (rest : List Nat) (f : Nat),
        (encode x).length + rest.length < f →
        decodeF f (encode x ++ rest) = .ok (x, rest)) :
    ∀ (rest : List Nat), (encodeItems items).length + rest.length < fuel →
      decodeItemsGo (decodeF fuel) items.length (encodeItems items ++ rest)
        = .ok (items, rest) := by
  induction items with
  | nil =>
    intro rest _
    simp [encodeItems, decodeItemsGo]
  | cons v vs ih =>
    intro rest h
    have hlen : (encodeItems (v :: vs)).length
        = (encode v).length + (encodeItems vs).length := by
      rw [show encodeItems (v :: vs) = encode v ++ encodeItems vs from rfl]
      simp only [List.length_append]
    rw [hlen] at h
    rw [show encodeItems (v :: vs) = encode v ++ encodeItems vs from rfl,
      List.append_assoc, List.length_cons]
    refine decodeItemsGo_step _ _ _ (encodeItems vs ++ rest) _ _ _ ?_ ?_
    · exact IH v (by simp) (encodeItems vs ++ rest) fuel
        (by simp only [List.length_append]; omega)
    · exact ih (fun x hx => IH x (by simp [hx])) rest (by omega)

theorem decodeEntriesGo_encodeEntries (fuel : Nat)
    (entries : List (List Nat × WireValue))
    (IH : ∀ p ∈ entries, ∀ (rest : List Nat) (f : Nat),
        (encode p.2).length + rest.length < f →
        decodeF f (encode p.2 ++ rest) = .ok (p.2, rest))
    (HK : ∀ p ∈ entries, p.1.length < 2 ^ 32) :
    ∀ (rest : List Nat), (encodeEntries entries).length + rest.length < fuel →
      decodeEntriesGo (decodeF fuel) entries.length (encodeEntries entries ++ rest)
        = .ok (entries, rest) := by
  induction entries with
  | nil =>
    intro rest _
    simp [encodeEntries, decodeEntriesGo]
  | cons p kvs ih =>
    intro rest h
    obtain ⟨k, v⟩ := p
    have hlen : (encodeEntries ((k, v) :: kvs)).length
        = (encodeStr k).length + (encode v).length + (encodeEntries kvs).length := by
      rw [show encodeEntries ((k, v) :: kvs)
          = encodeStr k ++ encode v ++ encodeEntries kvs from rfl]
      simp only [List.length_append]
    rw [hlen] at h
    rw [show encodeEntries ((k, v) :: kvs)
        = encodeStr k ++ encode v ++ encodeEntries kvs from rfl,
      List.append_assoc, List.append_assoc, List.length_cons]
    refine decodeEntriesGo_step _ _ _
      (encode v ++ (encodeEntries kvs ++ rest)) (encodeEntries kvs ++ rest) _ _ _ _
      ?_ ?_ ?_
    · exact decodeStrV_encodeStr k _ (HK (k, v) (by simp))
    · exact IH (k, v) (by simp) (encodeEntries kvs ++ rest) fuel
        (by simp only [List.length_append]; omega)
    · exact ih (fun q hq => IH q (by simp [hq])) (fun q hq => HK q (by simp [hq]))
        rest (by omega)

theorem encodeStrList_length_pos (ls : List (List Nat)) :
    1 ≤ (encodeStrList ls).length := by
  unfold encodeStrList
  have := listHeader_length_pos ls.length
  simp only [List.length_append]
  omega

theorem encodeIntList_length_pos (is : List Int) :
    1 ≤ (encodeIntList is).length := by
  unfold encodeIntList
  have := listHeader_length_pos is.length
  simp only [List.length_append]
  omega

set_option maxHeartbeats 4000000 in
theorem decodeF_encode : ∀ (N : Nat) (v : WireValue), sizeOf v < N → wfV v = true →
    ∀ (rest : List Nat) (fuel : Nat), (encode v).length + rest.length < fuel →
      decodeF fuel (encode v ++ rest) = .ok (v, rest) := by
  intro N
  induction N with
  | zero =>
    intro v hv
    exact absurd hv (Nat.not_lt_zero _)
  | succ N ih =>
    intro v hv hwf rest fuel hfuel
    obtain ⟨f, rfl⟩ : ∃ f, fuel = f + 1 := ⟨fuel - 1, by omega⟩
    cases v with
    | null => rfl
    | bool b => cases b <;> rfl
    | integer i =>
      simp only [wfV, Bool.and_eq_true, decide_eq_true_eq] at hwf
      rw [show encode (.integer i) = encodeIntV i from rfl]
      exact decodeF_intV f i rest hwf.1 hwf.2
    | float bits =>
      simp only [wfV, decide_eq_true_eq] at hwf
      rw [show encode (.float bits) = 0xC1 :: beBytes 8 bits from rfl, decodeF_succ]
      exact decodeOne_float _ bits rest hwf
    | string s =>
      simp only [wfV, Bool.and_eq_true, decide_eq_true_eq] at hwf
      rw [show encode (.string s) = encodeStr s from rfl]
      exact decodeF_string f s rest hwf.1
    | bytes bs =>
      simp only [wfV, Bool.and_eq_true, decide_eq_true_eq] at hwf
      rw [show encode (.bytes bs) = bytesHeader bs.length ++ bs from rfl, decodeF_succ]
      exact decodeOne_bytes _ bs rest hwf.1
    | list items =>
      simp only [wfV, Bool.and_eq_true, decide_eq_true_eq] at hwf
      obtain ⟨hlen, hitems⟩ := hwf
      rw [show encode (.list items)
          = listHeader items.length ++ encodeItems items from rfl] at hfuel ⊢
      simp only [List.length_append] at hfuel
      rw [decodeF_succ, List.append_assoc, decodeOne_list _ items.length hlen _]
      have hIH : ∀ x ∈ items, ∀ (rest' : List Nat) (f' : Nat),
          (encode x).length + rest'.length < f' →
          decodeF f' (encode x ++ rest') = .ok (x, rest') := by
        intro x hx rest' f' hf'
        have hs : sizeOf x < sizeOf (WireValue.list items) := by
          have := List.sizeOf_lt_of_mem hx
          simp
          omega
        exact ih x (by omega) (wfItems_mem items hitems x hx) rest' f' hf'
      have hlp := listHeader_length_pos items.length
      have hgo := decodeItemsGo_encodeItems f items hIH rest (by omega)
      simp only [hgo]
    | map entries =>
      simp only [wfV, Bool.and_eq_true, decide_eq_true_eq] at hwf
      obtain ⟨hlen, hentries⟩ := hwf
      rw [show encode (.map entries)
          = mapHeader entries.length ++ encodeEntries entries from rfl] at hfuel ⊢
      simp only [List.length_append] at hfuel
      rw [decodeF_succ, List.append_assoc, decodeOne_map _ entries.length hlen _]
      have hIH : ∀ p ∈ entries, ∀ (rest' : List Nat) (f' : Nat),
          (encode p.2).length + rest'.length < f' →
          decodeF f' (encode p.2 ++ rest') = .ok (p.2, rest') := by
        intro p hp rest' f' hf'
        have hs : sizeOf p.2 < sizeOf (WireValue.map entries) := by
          have h1 := List.sizeOf_lt_of_mem hp
          obtain ⟨k, w⟩ := p
          simp at h1 ⊢
          omega
        exact ih p.2 (by omega) (wfEntries_mem entries hentries p hp).2 rest' f' hf'
      have hmp := mapHeader_length_pos entries.length
      have hgo := decodeEntriesGo_encodeEntries f entries hIH
        (fun p hp => (wfEntries_mem entries hentries p hp).1) rest (by omega)
      simp only [hgo]
    | node id labels props =>
      simp only [wfV, Bool.and_eq_true, decide_eq_true_eq] at hwf
      obtain ⟨⟨⟨⟨⟨hid1, hid2⟩, hllen⟩, hlabs⟩, hplen⟩, hprops⟩ := hwf
      have hls : ∀ l ∈ labels, l.length < 2 ^ 32 := by
        intro l hl
        have h := List.all_eq_true.mp hlabs l hl
        simp only [Bool.and_eq_true, decide_eq_true_eq] at h
        exact h.1
      rw [show encode (.node id labels props)
          = [0xB3, 0x4E] ++ encodeIntV id ++ encodeStrList labels
            ++ (mapHeader props.length ++ encodeEntries props) from rfl] at hfuel ⊢
      simp only [List.cons_append, List.nil_append, List.append_assoc] at hfuel ⊢
      simp only [List.length_cons, List.length_append] at hfuel
      have hA := encodeIntV_length_pos id
      have hB := encodeStrList_length_pos labels
      have hC := mapHeader_length_pos props.length
      obtain ⟨g, rfl⟩ : ∃ g, f = g + 1 := ⟨f - 1, by omega⟩
      rw [decodeF_succ, decodeOne_cons]
      rw [show (0xB3 : Nat) = 0xB0 + 3 from rfl]
      rw [decodeMarker_tinyStruct _ 3 (by omega) 0x4E _]
      have h1 : decodeF (g + 1)
          (encodeIntV id ++ (encodeStrList labels
            ++ (mapHeader props.length ++ (encodeEntries props ++ rest))))
          = .ok (.integer id, encodeStrList labels
              ++ (mapHeader props.length ++ (encodeEntries props ++ rest))) :=
        decodeF_intV g id _ hid1 hid2
      have h2 : decodeF (g + 1)
          (encodeStrList labels ++ (mapHeader props.length ++ (encodeEntries props ++ rest)))
          = .ok (.list (labels.map .string),
              mapHeader props.length ++ (encodeEntries props ++ rest)) :=
        decodeF_strList (g + 1) (by omega) labels hllen hls _
      have h3 : decodeF (g + 1) (mapHeader props.length ++ (encodeEntries props ++ rest))
          = .ok (.map props, rest) := by
        have hs : sizeOf (WireValue.map props) < sizeOf (WireValue.node id labels props) := by
          have := list_sizeOf_pos labels
          simp
          omega
        have hmw : wfV (.map props) = true := by
          simp only [wfV, Bool.and_eq_true, decide_eq_true_eq]
          exact ⟨hplen, hprops⟩
        have hh := ih (.map props) (by omega) hmw rest (g + 1)
          (by rw [show encode (WireValue.map props)
                = mapHeader props.length ++ encodeEntries props from rfl]
              simp only [List.length_append]
              omega)
        rw [show encode (WireValue.map props)
            = mapHeader props.length ++ encodeEntries props from rfl,
          List.append_assoc] at hh
        exact hh
      have hsteps : decodeItemsGo (decodeF (g + 1)) 3
          (encodeIntV id ++ (encodeStrList labels
            ++ (mapHeader props.length ++ (encodeEntries props ++ rest))))
          = .ok ([.integer id, .list (labels.map .string), .map props], rest) := by
        refine decodeItemsGo_step _ 2 _ _ _ _ _ h1 ?_
        refine decodeItemsGo_step _ 1 _ _ _ _ _ h2 ?_
        refine decodeItemsGo_step _ 0 _ _ _ _ _ h3 ?_
        exact decodeItemsGo_zero _ _
      simp only [hsteps]
      have hmk : mkStruct 0x4E [.integer id, .list (labels.map .string), .map props]
          = .ok (.node id labels props) := by
        rw [show mkStruct 0x4E [.integer id, .list (labels.map .string), .map props]
            = (match asStrings (labels.map .string) with
               | some ls => Except.ok (.node id ls props)
               | none => Except.error Err.unknownMarker) from rfl,
          asStrings_map]
      simp only [hmk]
    | relationship id sid eid t props =>
      simp only [wfV, Bool.and_eq_true, decide_eq_true_eq] at hwf
      obtain ⟨⟨⟨⟨⟨⟨⟨⟨⟨ha, hb⟩, hc⟩, hd⟩, he2⟩, hf2⟩, hg2⟩, hh2⟩, hi2⟩, hj2⟩ := hwf
      rw [show encode (.relationship id sid eid t props)
          = [0xB5, 0x52] ++ encodeIntV id ++ encodeIntV sid ++ encodeIntV eid
            ++ encodeStr t ++ (mapHeader props.length ++ encodeEntries props) from rfl]
        at hfuel ⊢
      simp only [List.cons_append, List.nil_append, List.append_assoc] at hfuel ⊢
      simp only [List.length_cons, List.length_append] at hfuel
      obtain ⟨g, rfl⟩ : ∃ g, f = g + 1 := ⟨f - 1, by omega⟩
      rw [decodeF_succ, decodeOne_cons]
      rw [show (0xB5 : Nat) = 0xB0 + 5 from rfl]
      rw [decodeMarker_tinyStruct _ 5 (by omega) 0x52 _]
      have h1 : decodeF (g + 1)
          (encodeIntV id ++ (encodeIntV sid ++ (encodeIntV eid
            ++ (encodeStr t ++ (mapHeader props.length ++ (encodeEntries props ++ rest))))))
          = .ok (.integer id, encodeIntV sid ++ (encodeIntV eid
              ++ (encodeStr t ++ (mapHeader props.length ++ (encodeEntries props ++ rest))))) :=
        decodeF_intV g id _ ha hb
      have h2 : decodeF (g + 1)
          (encodeIntV sid ++ (encodeIntV eid
            ++ (encodeStr t ++ (mapHeader props.length ++ (encodeEntries props ++ rest)))))
          = .ok (.integer sid, encodeIntV eid
              ++ (encodeStr t ++ (mapHeader props.length ++ (encodeEntries props ++ rest)))) :=
        decodeF_intV g sid _ hc hd
      have h3 : decodeF (g + 1)
          (encodeIntV eid
            ++ (encodeStr t ++ (mapHeader props.length ++ (encodeEntries props ++ rest))))
          = .ok (.integer eid,
              encodeStr t ++ (mapHeader props.length ++ (encodeEntries props ++ rest))) :=
        decodeF_intV g eid _ he2 hf2
      have h4 : decodeF (g + 1)
          (encodeStr t ++ (mapHeader props.length ++ (encodeEntries props ++ rest)))
          = .ok (.string t, mapHeader props.length ++ (encodeEntries props ++ rest)) :=
        decodeF_string g t _ hg2
      have h5 : decodeF (g + 1) (mapHeader props.length ++ (encodeEntries props ++ rest))
          = .ok (.map props, rest) := by
        have hs : sizeOf (WireValue.map props)
            < sizeOf (WireValue.relationship id sid eid t props) := by
          have := list_sizeOf_pos t
          simp
          omega
        have hmw : wfV (.map props) = true := by
          simp only [wfV, Bool.and_eq_true, decide_eq_true_eq]
          exact ⟨hi2, hj2⟩
        have hh := ih (.map props) (by omega) hmw rest (g + 1)
          (by rw [show encode (WireValue.map props)
                = mapHeader props.length ++ encodeEntries props from rfl]
              simp only [List.length_append]
              omega)
        rw [show encode (WireValue.map props)
            = mapHeader props.length ++ encodeEntries props from rfl,
          List.append_assoc] at hh
        exact hh
      have hsteps : decodeItemsGo (decodeF (g + 1)) 5
          (encodeIntV id ++ (encodeIntV sid ++ (encodeIntV eid
            ++ (encodeStr t ++ (mapHeader props.length ++ (encodeEntries props ++ rest))))))
          = .ok ([.integer id, .integer sid, .integer eid, .string t, .map props], rest) := by
        refine decodeItemsGo_step _ 4 _ _ _ _ _ h1 ?_
        refine decodeItemsGo_step _ 3 _ _ _ _ _ h2 ?_
        refine decodeItemsGo_step _ 2 _ _ _ _ _ h3 ?_
        refine decodeItemsGo_step _ 1 _ _ _ _ _ h4 ?_
        refine decodeItemsGo_step _ 0 _ _ _ _ _ h5 ?_
        exact decodeItemsGo_zero _ _
      simp only [hsteps]
      rw [show mkStruct 0x52 [.integer id, .integer sid, .integer eid, .string t, .map props]
          = .ok (.relationship id sid eid t props) from rfl]
    | unboundedRelationship id t props =>
      simp only [wfV, Bool.and_eq_true, decide_eq_true_eq] at hwf
      obtain ⟨⟨⟨⟨⟨ha, hb⟩, hc⟩, hd⟩, he2⟩, hf2⟩ := hwf
      rw [show encode (.unboundedRelationship id t props)
          = [0xB3, 0x72] ++ encodeIntV id ++ encodeStr t
            ++ (mapHeader props.length ++ encodeEntries props) from rfl] at hfuel ⊢
      simp only [List.cons_append, List.nil_append, List.append_assoc] at hfuel ⊢
      simp only [List.length_cons, List.length_append] at hfuel
      obtain ⟨g, rfl⟩ : ∃ g, f = g + 1 := ⟨f - 1, by omega⟩
      rw [decodeF_succ, decodeOne_cons]
      rw [show (0xB3 : Nat) = 0xB0 + 3 from rfl]
      rw [decodeMarker_tinyStruct _ 3 (by omega) 0x72 _]
      have h1 : decodeF (g + 1)
          (encodeIntV id ++ (encodeStr t
            ++ (mapHeader props.length ++ (encodeEntries props ++ rest))))
          = .ok (.integer id,
              encodeStr t ++ (mapHeader props.length ++ (encodeEntries props ++ rest))) :=
        decodeF_intV g id _ ha hb
      have h2 : decodeF (g + 1)
          (encodeStr t ++ (mapHeader props.length ++ (encodeEntries props ++ rest)))
          = .ok (.string t, mapHeader props.length ++ (encodeEntries props ++ rest)) :=
        decodeF_string g t _ hc
      have h3 : decodeF (g + 1) (mapHeader props.length ++ (encodeEntries props ++ rest))
          = .ok (.map props, rest) := by
        have hs : sizeOf (WireValue.map props)
            < sizeOf (WireValue.unboundedRelationship id t props) := by
          have := list_sizeOf_pos t
          simp
          omega
        have hmw : wfV (.map props) = true := by
          simp only [wfV, Bool.and_eq_true, decide_eq_true_eq]
          exact ⟨he2, hf2⟩
        have hh := ih (.map props) (by omega) hmw rest (g + 1)
          (by rw [show encode (WireValue.map props)
                = mapHeader props.length ++ encodeEntries props from rfl]
              simp only [List.length_append]
              omega)
        rw [show encode (WireValue.map props)
            = mapHeader props.length ++ encodeEntries props from rfl,
          List.append_assoc] at hh
        exact hh
      have hsteps : decodeItemsGo (decodeF (g + 1)) 3
          (encodeIntV id ++ (encodeStr t
            ++ (mapHeader props.length ++ (encodeEntries props ++ rest))))
          = .ok ([.integer id, .string t, .map props], rest) := by
        refine decodeItemsGo_step _ 2 _ _ _ _ _ h1 ?_
        refine decodeItemsGo_step _ 1 _ _ _ _ _ h2 ?_
        refine decodeItemsGo_step _ 0 _ _ _ _ _ h3 ?_
        exact decodeItemsGo_zero _ _
      simp only [hsteps]
      rw [show mkStruct 0x72 [.integer id, .string t, .map props]
          = .ok (.unboundedRelationship id t props) from rfl]
    | path ns rs idx =>
      simp only [wfV, Bool.and_eq_true, decide_eq_true_eq] at hwf
      obtain ⟨⟨⟨⟨⟨⟨⟨ha, hb⟩, hc⟩, hd⟩, he2⟩, hf2⟩, hg2⟩, hh2⟩ := hwf
      have hidx : ∀ i ∈ idx, -(2 ^ 63) ≤ i ∧ i < 2 ^ 63 := by
        intro i hi
        have h := List.all_eq_true.mp hh2 i hi
        simp only [Bool.and_eq_true, decide_eq_true_eq] at h
        exact h
      rw [show encode (.path ns rs idx)
          = [0xB3, 0x50] ++ (listHeader ns.length ++ encodeItems ns)
            ++ (listHeader rs.length ++ encodeItems rs) ++ encodeIntList idx from rfl]
        at hfuel ⊢
      simp only [List.cons_append, List.nil_append, List.append_assoc] at hfuel ⊢
      simp only [List.length_cons, List.length_append] at hfuel
      have hp1 := listHeader_length_pos ns.length
      have hp2 := listHeader_length_pos rs.length
      have hp3 := encodeIntList_length_pos idx
      obtain ⟨g, rfl⟩ : ∃ g, f = g + 1 := ⟨f - 1, by omega⟩
      rw [decodeF_succ, decodeOne_cons]
      rw [show (0xB3 : Nat) = 0xB0 + 3 from rfl]
      rw [decodeMarker_tinyStruct _ 3 (by omega) 0x50 _]
      have h1 : decodeF (g + 1)
          (listHeader ns.length ++ (encodeItems ns
            ++ (listHeader rs.length ++ (encodeItems rs ++ (encodeIntList idx ++ rest)))))
          = .ok (.list ns, listHeader rs.length
              ++ (encodeItems rs ++ (encodeIntList idx ++ rest))) := by
        have hs : sizeOf (WireValue.list ns) < sizeOf (WireValue.path ns rs idx) := by
          have := list_sizeOf_pos rs
          have := list_sizeOf_pos idx
          simp
          omega
        have hmw : wfV (.list ns) = true := by
          simp only [wfV, Bool.and_eq_true, decide_eq_true_eq]
          exact ⟨ha, hc⟩
        have hh := ih (.list ns) (by omega) hmw
          (listHeader rs.length ++ (encodeItems rs ++ (encodeIntList idx ++ rest))) (g + 1)
          (by rw [show encode (WireValue.list ns)
                = listHeader ns.length ++ encodeItems ns from rfl]
              simp only [List.length_append]
              omega)
        rw [show encode (WireValue.list ns)
            = listHeader ns.length ++ encodeItems ns from rfl,
          List.append_assoc] at hh
        exact hh
      have h2 : decodeF (g + 1)
          (listHeader rs.length ++ (encodeItems rs ++ (encodeIntList idx ++ rest)))
          = .ok (.list rs, encodeIntList idx ++ rest) := by
        have hs : sizeOf (WireValue.list rs) < sizeOf (WireValue.path ns rs idx) := by
          have := list_sizeOf_pos ns
          have := list_sizeOf_pos idx
          simp
          omega
        have hmw : wfV (.list rs) = true := by
          simp only [wfV, Bool.and_eq_true, decide_eq_true_eq]
          exact ⟨hd, hf2⟩
        have hh := ih (.list rs) (by omega) hmw (encodeIntList idx ++ rest) (g + 1)
          (by rw [show encode (WireValue.list rs)
                = listHeader rs.length ++ encodeItems rs from rfl]
              simp only [List.length_append]
              omega)
        rw [show encode (WireValue.list rs)
            = listHeader rs.length ++ encodeItems rs from rfl,
          List.append_assoc] at hh
        exact hh
      have h3 : decodeF (g + 1) (encodeIntList idx ++ rest)
          = .ok (.list (idx.map .integer), rest) :=
        decodeF_intList (g + 1) (by omega) idx hg2 hidx rest
      have hsteps : decodeItemsGo (decodeF (g + 1)) 3
          (listHeader ns.length ++ (encodeItems ns
            ++ (listHeader rs.length ++ (encodeItems rs ++ (encodeIntList idx ++ rest)))))
          = .ok ([.list ns, .list rs, .list (idx.map .integer)], rest) := by
        refine decodeItemsGo_step _ 2 _ _ _ _ _ h1 ?_
        refine decodeItemsGo_step _ 1 _ _ _ _ _ h2 ?_
        refine decodeItemsGo_step _ 0 _ _ _ _ _ h3 ?_
        exact decodeItemsGo_zero _ _
      simp only [hsteps]
      have hmk : mkStruct 0x50 [.list ns, .list rs, .list (idx.map .integer)]
          = .ok (.path ns rs idx) := by
        rw [show mkStruct 0x50 [.list ns, .list rs, .list (idx.map .integer)]
            = (if ns.all isNodeV && rs.all isURelV then
                match asInts (idx.map .integer) with
                | some is => Except.ok (.path ns rs is)
                | none => Except.error Err.unknownMarker
              else Except.error Err.unknownMarker) from rfl,
          hb, he2]
        simp [asInts_map]
      simp only [hmk]
    | point2d srid x y =>
      simp only [wfV, Bool.and_eq_true, decide_eq_true_eq] at hwf
      obtain ⟨⟨⟨ha, hb⟩, hc⟩, hd⟩ := hwf
      rw [show encode (.point2d srid x y)
          = [0xB3, 0x58] ++ encodeIntV srid ++ (0xC1 :: beBytes 8 x)
            ++ (0xC1 :: beBytes 8 y) from rfl] at hfuel ⊢
      simp only [List.cons_append, List.nil_append, List.append_assoc] at hfuel ⊢
      simp only [List.length_cons, List.length_append] at hfuel
      obtain ⟨g, rfl⟩ : ∃ g, f = g + 1 := ⟨f - 1, by omega⟩
      rw [decodeF_succ, decodeOne_cons]
      rw [show (0xB3 : Nat) = 0xB0 + 3 from rfl]
      rw [decodeMarker_tinyStruct _ 3 (by omega) 0x58 _]
      have h1 : decodeF (g + 1)
          (encodeIntV srid ++ (0xC1 :: (beBytes 8 x ++ (0xC1 :: (beBytes 8 y ++ rest)))))
          = .ok (.integer srid, 0xC1 :: (beBytes 8 x ++ (0xC1 :: (beBytes 8 y ++ rest)))) :=
        decodeF_intV g srid _ ha hb
      have h2 : decodeF (g + 1) (0xC1 :: (beBytes 8 x ++ (0xC1 :: (beBytes 8 y ++ rest))))
          = .ok (.float x, 0xC1 :: (beBytes 8 y ++ rest)) := by
        have hh := decodeOne_float (decodeF g) x (0xC1 :: (beBytes 8 y ++ rest)) hc
        rw [List.cons_append] at hh
        rw [decodeF_succ]
        exact hh
      have h3 : decodeF (g + 1) (0xC1 :: (beBytes 8 y ++ rest))
          = .ok (.float y, rest) := by
        have hh := decodeOne_float (decodeF g) y rest hd
        rw [List.cons_append] at hh
        rw [decodeF_succ]
        exact hh
      have hsteps : decodeItemsGo (decodeF (g + 1)) 3
          (encodeIntV srid ++ (0xC1 :: (beBytes 8 x ++ (0xC1 :: (beBytes 8 y ++ rest)))))
          = .ok ([.integer srid, .float x, .float y], rest) := by
        refine decodeItemsGo_step _ 2 _ _ _ _ _ h1 ?_
        refine decodeItemsGo_step _ 1 _ _ _ _ _ h2 ?_
        refine decodeItemsGo_step _ 0 _ _ _ _ _ h3 ?_
        exact decodeItemsGo_zero _ _
      simp only [hsteps]
      rw [show mkStruct 0x58 [.integer srid, .float x, .float y]
          = .ok (.point2d srid x y) from rfl]
    | point3d srid x y z =>
      simp only [wfV, Bool.and_eq_true, decide_eq_true_eq] at hwf
      obtain ⟨⟨⟨⟨ha, hb⟩, hc⟩, hd⟩, he2⟩ := hwf
      rw [show encode (.point3d srid x y z)
          = [0xB4, 0x59] ++ encodeIntV srid ++ (0xC1 :: beBytes 8 x)
            ++ (0xC1 :: beBytes 8 y) ++ (0xC1 :: beBytes 8 z) from rfl] at hfuel ⊢
      simp only [List.cons_append, List.nil_append, List.append_assoc] at hfuel ⊢
      simp only [List.length_cons, List.length_append] at hfuel
      obtain ⟨g, rfl⟩ : ∃ g, f = g + 1 := ⟨f - 1, by omega⟩
      rw [decodeF_succ, decodeOne_cons]
      rw [show (0xB4 : Nat) = 0xB0 + 4 from rfl]
      rw [decodeMarker_tinyStruct _ 4 (by omega) 0x59 _]
      have h1 : decodeF (g + 1)
          (encodeIntV srid ++ (0xC1 :: (beBytes 8 x
            ++ (0xC1 :: (beBytes 8 y ++ (0xC1 :: (beBytes 8 z ++ rest)))))))
          = .ok (.integer srid, 0xC1 :: (beBytes 8 x
              ++ (0xC1 :: (beBytes 8 y ++ (0xC1 :: (beBytes 8 z ++ rest)))))) :=
        decodeF_intV g srid _ ha hb
      have h2 : decodeF (g + 1)
          (0xC1 :: (beBytes 8 x ++ (0xC1 :: (beBytes 8 y ++ (0xC1 :: (beBytes 8 z ++ rest))))))
          = .ok (.float x, 0xC1 :: (beBytes 8 y ++ (0xC1 :: (beBytes 8 z ++ rest)))) := by
        have hh := decodeOne_float (decodeF g) x
          (0xC1 :: (beBytes 8 y ++ (0xC1 :: (beBytes 8 z ++ rest)))) hc
        rw [List.cons_append] at hh
        rw [decodeF_succ]
        exact hh
      have h3 : decodeF (g + 1)
          (0xC1 :: (beBytes 8 y ++ (0xC1 :: (beBytes 8 z ++ rest))))
          = .ok (.float y, 0xC1 :: (beBytes 8 z ++ rest)) := by
        have hh := decodeOne_float (decodeF g) y (0xC1 :: (beBytes 8 z ++ rest)) hd
        rw [List.cons_append] at hh
        rw [decodeF_succ]
        exact hh
      have h4 : decodeF (g + 1) (0xC1 :: (beBytes 8 z ++ rest))
          = .ok (.float z, rest) := by
        have hh := decodeOne_float (decodeF g) z rest he2
        rw [List.cons_append] at hh
        rw [decodeF_succ]
        exact hh
      have hsteps : decodeItemsGo (decodeF (g + 1)) 4
          (encodeIntV srid ++ (0xC1 :: (beBytes 8 x
            ++ (0xC1 :: (beBytes 8 y ++ (0xC1 :: (beBytes 8 z ++ rest)))))))
          = .ok ([.integer srid, .float x, .float y, .float z], rest) := by
        refine decodeItemsGo_step _ 3 _ _ _ _ _ h1 ?_
        refine decodeItemsGo_step _ 2 _ _ _ _ _ h2 ?_
        refine decodeItemsGo_step _ 1 _ _ _ _ _ h3 ?_
        refine decodeItemsGo_step _ 0 _ _ _ _ _ h4 ?_
        exact decodeItemsGo_zero _ _
      simp only [hsteps]
      rw [show mkStruct 0x59 [.integer srid, .float x, .float y, .float z]
          = .ok (.point3d srid x y z) from rfl]
    | date days =>
      simp only [wfV, Bool.and_eq_true, decide_eq_true_eq] at hwf
      obtain ⟨ha, hb⟩ := hwf
      rw [show encode (.date days) = [0xB1, 0x44] ++ encodeIntV days from rfl] at hfuel ⊢
      simp only [List.cons_append, List.nil_append, List.append_assoc] at hfuel ⊢
      simp only [List.length_cons, List.length_append] at hfuel
      obtain ⟨g, rfl⟩ : ∃ g, f = g + 1 := ⟨f - 1, by omega⟩
      rw [decodeF_succ, decodeOne_cons]
      rw [show (0xB1 : Nat) = 0xB0 + 1 from rfl]
      rw [decodeMarker_tinyStruct _ 1 (by omega) 0x44 _]
      have h1 : decodeF (g + 1) (encodeIntV days ++ rest)
          = .ok (.integer days, rest) := decodeF_intV g days rest ha hb
      have hsteps : decodeItemsGo (decodeF (g + 1)) 1 (encodeIntV days ++ rest)
          = .ok ([.integer days], rest) := by
        refine decodeItemsGo_step _ 0 _ _ _ _ _ h1 ?_
        exact decodeItemsGo_zero _ _
      simp only [hsteps]
      rw [show mkStruct 0x44 [.integer days] = .ok (.date days) from rfl]
    | localTime nanos =>
      simp only [wfV, Bool.and_eq_true, decide_eq_true_eq] at hwf
      obtain ⟨ha, hb⟩ := hwf
      rw [show encode (.localTime nanos) = [0xB1, 0x74] ++ encodeIntV nanos from rfl]
        at hfuel ⊢
      simp only [List.cons_append, List.nil_append, List.append_assoc] at hfuel ⊢
      simp only [List.length_cons, List.length_append] at hfuel
      obtain ⟨g, rfl⟩ : ∃ g, f = g + 1 := ⟨f - 1, by omega⟩
      rw [decodeF_succ, decodeOne_cons]
      rw [show (0xB1 : Nat) = 0xB0 + 1 from rfl]
      rw [decodeMarker_tinyStruct _ 1 (by omega) 0x74 _]
      have h1 : decodeF (g + 1) (encodeIntV nanos ++ rest)
          = .ok (.integer nanos, rest) := decodeF_intV g nanos rest ha hb
      have hsteps : decodeItemsGo (decodeF (g + 1)) 1 (encodeIntV nanos ++ rest)
          = .ok ([.integer nanos], rest) := by
        refine decodeItemsGo_step _ 0 _ _ _ _ _ h1 ?_
        exact decodeItemsGo_zero _ _
      simp only [hsteps]
      rw [show mkStruct 0x74 [.integer nanos] = .ok (.localTime nanos) from rfl]
    | localDateTime secs nanos =>
      simp only [wfV, Bool.and_eq_true, decide_eq_true_eq] at hwf
      obtain ⟨⟨⟨ha, hb⟩, hc⟩, hd⟩ := hwf
      rw [show encode (.localDateTime secs nanos)
          = [0xB2, 0x64] ++ encodeIntV secs ++ encodeIntV nanos from rfl] at hfuel ⊢
      simp only [List.cons_append, List.nil_append, List.append_assoc] at hfuel ⊢
      simp only [List.length_cons, List.length_append] at hfuel
      obtain ⟨g, rfl⟩ : ∃ g, f = g + 1 := ⟨f - 1, by omega⟩
      rw [decodeF_succ, decodeOne_cons]
      rw [show (0xB2 : Nat) = 0xB0 + 2 from rfl]
      rw [decodeMarker_tinyStruct _ 2 (by omega) 0x64 _]
      have h1 : decodeF (g + 1) (encodeIntV secs ++ (encodeIntV nanos ++ rest))
          = .ok (.integer secs, encodeIntV nanos ++ rest) :=
        decodeF_intV g secs _ ha hb
      have h2 : decodeF (g + 1) (encodeIntV nanos ++ rest)
          = .ok (.integer nanos, rest) := decodeF_intV g nanos rest hc hd
      have hsteps : decodeItemsGo (decodeF (g + 1)) 2
          (encodeIntV secs ++ (encodeIntV nanos ++ rest))
          = .ok ([.integer secs, .integer nanos], rest) := by
        refine decodeItemsGo_step _ 1 _ _ _ _ _ h1 ?_
        refine decodeItemsGo_step _ 0 _ _ _ _ _ h2 ?_
        exact decodeItemsGo_zero _ _
      simp only [hsteps]
      rw [show mkStruct 0x64 [.integer secs, .integer nanos]
          = .ok (.localDateTime secs nanos) from rfl]

theorem decode_encode (v : WireValue) (rest : List Nat) (h : wfV v = true) :
    decode (encode v ++ rest) = .ok (v, rest) := by
  unfold decode
  exact decodeF_encode (sizeOf v + 1) v (by omega) h rest _
    (by simp only [List.length_append]; omega)

/-- C1: for every supported WireValue — Null, Bool, Integer, Float, String,
List, Map, Bytes, Node, Relationship, UnboundedRelationship, Path, Point2D,
Point3D and the temporal variants — decoding the encoding yields exactly the
value back with nothing left over, and trailing bytes are left untouched:
encode and decode are exact inverses on every supported value. -/
theorem codec_roundtrip (v : WireValue) (rest : List Nat) (h : wfV v = true) :
    decode (encode v ++ rest) = .ok (v, rest)
      ∧ decode (encode v) = .ok (v, []) := by
  refine ⟨decode_encode v rest h, ?_⟩
  have hh := decode_encode v [] h
  simpa using hh

/-- C1 witness: a value exercising every variant — scalars, collections,
graph structures, spatial points and temporal values — round-trips
concretely. -/
theorem codec_roundtrip_witness :
    decode (encode (.list [.null, .bool false, .integer (-200), .float 1,
        .string [104], .bytes [255], .list [.integer 70000],
        .map [([107], .integer 1)], .node 1 [[76]] [([112], .null)],
        .relationship 2 3 4 [84] [], .unboundedRelationship 5 [85] [],
        .path [.node 6 [] []] [.unboundedRelationship 7 [86] []] [1, -1],
        .point2d 4326 10 20, .point3d 4979 1 2 3, .date 19000,
        .localTime 1000000, .localDateTime 1700000000 500]) ++ [7])
      = .ok (.list [.null, .bool false, .integer (-200), .float 1,
        .string [104], .bytes [255], .list [.integer 70000],
        .map [([107], .integer 1)], .node 1 [[76]] [([112], .null)],
        .relationship 2 3 4 [84] [], .unboundedRelationship 5 [85] [],
        .path [.node 6 [] []] [.unboundedRelationship 7 [86] []] [1, -1],
        .point2d 4326 10 20, .point3d 4979 1 2 3, .date 19000,
        .localTime 1000000, .localDateTime 1700000000 500], [7]) :=
  (codec_roundtrip _ [7] (by rfl)).1

theorem takeExact_short (n : Nat) (bs : List Nat) (h : bs.length < n) :
    takeExact n bs = .error .unexpectedEnd := by
  unfold takeExact
  rw [if_pos h]

theorem takePayload_short (n : Nat) (bs : List Nat) (h : bs.length < n) :
    takePayload n bs = .error .sizeMismatch := by
  unfold takePayload
  rw [if_pos h]

theorem readLen_short (w : Nat) (bs : List Nat) (h : bs.length < w) :
    readLen w bs = .error .unexpectedEnd := by
  unfold readLen
  rw [takeExact_short w bs h]

theorem decodeIntW_short (w : Nat) (bs : List Nat) (h : bs.length < w) :
    decodeIntW w bs = .error .unexpectedEnd := by
  unfold decodeIntW
  rw [takeExact_short w bs h]

/-- C7: the decoder rejects malformed input and never succeeds on it — an
unknown marker byte with `unknownMarker` whatever follows it; input that
ends inside a fixed-width field (a missing marker, a float body, any
width of integer body, any width of length field, or a structure marker
with no tag byte) with `unexpectedEnd`; and a length field larger than
the data actually supplied — for tiny, 8-, 16- and 32-bit string lengths
and 8-, 16- and 32-bit byte-array lengths — with `sizeMismatch`. -/
theorem codec_rejects_malformed :
    (∀ (m : Nat) (rest : List Nat), isUnknownMarker m = true →
        decode (m :: rest) = .error .unknownMarker)
      ∧ decode [] = .error .unexpectedEnd
      ∧ (∀ (m w : Nat) (rest : List Nat),
          (m, w) ∈ [(0xC1, 8), (0xC8, 1), (0xC9, 2), (0xCA, 4), (0xCB, 8),
            (0xCC, 1), (0xCD, 2), (0xCE, 4), (0xD0, 1), (0xD1, 2), (0xD2, 4),
            (0xD4, 1), (0xD5, 2), (0xD6, 4), (0xD8, 1), (0xD9, 2), (0xDA, 4)] →
          rest.length < w → decode (m :: rest) = .error .unexpectedEnd)
      ∧ (∀ n : Nat, n < 16 → decode [0xB0 + n] = .error .unexpectedEnd)
      ∧ (∀ (n : Nat) (payload : List Nat), n < 16 → payload.length < n →
          decode ((0x80 + n) :: payload) = .error .sizeMismatch)
      ∧ (∀ (m n : Nat) (payload : List Nat), m = 0xCC ∨ m = 0xD0 →
          payload.length < n → decode (m :: n :: payload) = .error .sizeMismatch)
      ∧ (∀ (m w n : Nat) (payload : List Nat),
          (m, w) ∈ [(0xCD, 2), (0xCE, 4), (0xD1, 2), (0xD2, 4)] → n < 256 ^ w →
          payload.length < n →
          decode (m :: (beBytes w n ++ payload)) = .error .sizeMismatch) := by
  refine ⟨?_, rfl, ?_, ?_, ?_, ?_, ?_⟩
  · intro m rest hm
    simp only [isUnknownMarker, Bool.or_eq_true, Bool.and_eq_true, beq_iff_eq,
      decide_eq_true_eq] at hm
    unfold decode
    simp only [List.length_cons]
    rw [decodeF_succ, decodeOne_cons]
    unfold decodeMarker
    repeat rw [if_neg (by omega)]
  · intro m w rest hm hw
    simp only [List.mem_cons, Prod.mk.injEq, List.not_mem_nil, or_false] at hm
    unfold decode
    simp only [List.length_cons]
    rw [decodeF_succ, decodeOne_cons]
    rcases hm with hc | hc | hc | hc | hc | hc | hc | hc | hc | hc | hc | hc | hc
      | hc | hc | hc | hc
    · obtain ⟨rfl, rfl⟩ := hc
      simp only [decodeMarker_float, takeExact_short 8 rest hw]
    · obtain ⟨rfl, rfl⟩ := hc
      simp only [decodeMarker_int8, decodeIntW_short 1 rest hw]
    · obtain ⟨rfl, rfl⟩ := hc
      simp only [decodeMarker_int16, decodeIntW_short 2 rest hw]
    · obtain ⟨rfl, rfl⟩ := hc
      simp only [decodeMarker_int32, decodeIntW_short 4 rest hw]
    · obtain ⟨rfl, rfl⟩ := hc
      simp only [decodeMarker_int64, decodeIntW_short 8 rest hw]
    · obtain ⟨rfl, rfl⟩ := hc
      simp only [decodeMarker_bytes8, readLen_short 1 rest hw]
    · obtain ⟨rfl, rfl⟩ := hc
      simp only [decodeMarker_bytes16, readLen_short 2 rest hw]
    · obtain ⟨rfl, rfl⟩ := hc
      simp only [decodeMarker_bytes32, readLen_short 4 rest hw]
    · obtain ⟨rfl, rfl⟩ := hc
      simp only [decodeMarker_str8, readLen_short 1 rest hw]
    · obtain ⟨rfl, rfl⟩ := hc
      simp only [decodeMarker_str16, readLen_short 2 rest hw]
    · obtain ⟨rfl, rfl⟩ := hc
      simp only [decodeMarker_str32, readLen_short 4 rest hw]
    · obtain ⟨rfl, rfl⟩ := hc
      simp only [decodeMarker_list8, readLen_short 1 rest hw]
    · obtain ⟨rfl, rfl⟩ := hc
      simp only [decodeMarker_list16, readLen_short 2 rest hw]
    · obtain ⟨rfl, rfl⟩ := hc
      simp only [decodeMarker_list32, readLen_short 4 rest hw]
    · obtain ⟨rfl, rfl⟩ := hc
      simp only [decodeMarker_map8, readLen_short 1 rest hw]
    · obtain ⟨rfl, rfl⟩ := hc
      simp only [decodeMarker_map16, readLen_short 2 rest hw]
    · obtain ⟨rfl, rfl⟩ := hc
      simp only [decodeMarker_map32, readLen_short 4 rest hw]
  · intro n hn
    unfold decode
    simp only [List.length_cons, List.length_nil]
    rw [decodeF_succ, decodeOne_cons]
    unfold decodeMarker
    rw [if_neg (by omega), if_neg (by omega), if_neg (by omega), if_neg (by omega),
      if_neg (by omega), if_pos (by omega)]
  · intro n payload hn hp
    unfold decode
    simp only [List.length_cons]
    rw [decodeF_succ, decodeOne_cons, decodeMarker_tinyStr _ n hn]
    simp only [takePayload_short n payload hp]
  · intro m n payload hm hp
    unfold decode
    simp only [List.length_cons]
    rw [decodeF_succ, decodeOne_cons]
    rcases hm with rfl | rfl
    · simp only [decodeMarker_bytes8, readLen_byte, takePayload_short n payload hp]
    · simp only [decodeMarker_str8, readLen_byte, takePayload_short n payload hp]
  · intro m w n payload hm hn hp
    simp only [List.mem_cons, Prod.mk.injEq, List.not_mem_nil, or_false] at hm
    unfold decode
    simp only [List.length_cons]
    rw [decodeF_succ, decodeOne_cons]
    rcases hm with hc | hc | hc | hc
    · obtain ⟨rfl, rfl⟩ := hc
      simp only [decodeMarker_bytes16, readLen_be 2 n hn payload,
        takePayload_short n payload hp]
    · obtain ⟨rfl, rfl⟩ := hc
      simp only [decodeMarker_bytes32, readLen_be 4 n hn payload,
        takePayload_short n payload hp]
    · obtain ⟨rfl, rfl⟩ := hc
      simp only [decodeMarker_str16, readLen_be 2 n hn payload,
        takePayload_short n payload hp]
    · obtain ⟨rfl, rfl⟩ := hc
      simp only [decodeMarker_str32, readLen_be 4 n hn payload,
        takePayload_short n payload hp]

/-- C7 witness: a concrete unknown marker; a truncated float body, a
truncated 64-bit integer body, a truncated length field and a tagless
structure marker; and overlong tiny-string, 8-bit-string, 8-bit-bytes and
16-bit-string length fields — each rejected with the right error. -/
theorem codec_rejects_malformed_witness :
    decode [0xC7] = .error .unknownMarker
      ∧ decode [0xC1, 0, 0] = .error .unexpectedEnd
      ∧ decode [0xCB, 1] = .error .unexpectedEnd
      ∧ decode [0xD1, 2] = .error .unexpectedEnd
      ∧ decode [0xB0 + 2] = .error .unexpectedEnd
      ∧ decode ((0x80 + 5) :: [1, 2]) = .error .sizeMismatch
      ∧ decode [0xD0, 5, 1] = .error .sizeMismatch
      ∧ decode [0xCC, 3] = .error .sizeMismatch
      ∧ decode (0xCD :: (beBytes 2 300 ++ [1, 2])) = .error .sizeMismatch :=
  ⟨codec_rejects_malformed.1 0xC7 [] (by decide),
    codec_rejects_malformed.2.2.1 0xC1 8 [0, 0] (by decide) (by decide),
    codec_rejects_malformed.2.2.1 0xCB 8 [1] (by decide) (by decide),
    codec_rejects_malformed.2.2.1 0xD1 2 [2] (by decide) (by decide),
    codec_rejects_malformed.2.2.2.1 2 (by decide),
    codec_rejects_malformed.2.2.2.2.1 5 [1, 2] (by decide) (by decide),
    codec_rejects_malformed.2.2.2.2.2.1 0xD0 5 [1] (Or.inr rfl) (by decide),
    codec_rejects_malformed.2.2.2.2.2.1 0xCC 3 [] (Or.inl rfl) (by decide),
    codec_rejects_malformed.2.2.2.2.2.2 0xCD 2 300 [1, 2] (by decide) (by decide)
      (by decide)⟩

end Neo4rs
